import Mathlib

/-!
Verification development for the jsonlol structured-data viewer.

The repository's parsing layer delegates to the JavaScript builtin
`JSON.parse` / `JSON.stringify` and to the PapaParse CSV library.  Those
platform pieces are modelled here explicitly: JSON values carry exact
decimal numbers (sign, mantissa, decimal exponent) instead of IEEE
doubles, strings are unicode scalar sequences, and `JSON.stringify`'s
optional indentation argument is modelled compactly since it only inserts
whitespace that the grammar ignores.  Everything written in the
repository itself (the three format parsers, the document store, the
schema explorer) is translated directly from its source.
-/

/-- Left brace character, kept as a named constant. -/
def lbraceC : Char := Char.ofNat 123

/-- Right brace character, kept as a named constant. -/
def rbraceC : Char := Char.ofNat 125

/-- Whitespace accepted by the JSON grammar (what `JSON.parse` skips). -/
def isWsChar (c : Char) : Bool :=
  c = ' ' || c = '\t' || c = '\n' || c = '\r'

/-- Drop leading JSON whitespace. -/
def skipWs : List Char → List Char
  | [] => []
  | c :: cs => if isWsChar c then skipWs cs else c :: cs

/-- ASCII decimal digit test. -/
def isDigitChar (c : Char) : Bool :=
  48 ≤ c.toNat && c.toNat ≤ 57

/-- Numeric value of an ASCII digit character. -/
def digitVal (c : Char) : Nat := c.toNat - 48

/-- Digit character of a value below ten. -/
def digitChr (d : Nat) : Char := Char.ofNat (48 + d)

/-- Decimal digits of a natural number, most significant first. -/
def natDigitsMSF (m : Nat) : List Char :=
  if h : m < 10 then [digitChr m]
  else natDigitsMSF (m / 10) ++ [digitChr (m % 10)]
termination_by m
decreasing_by
  exact Nat.div_lt_self (by omega) (by omega)

/-- Value of a most-significant-first digit string. -/
def digitsToNat (ds : List Char) : Nat :=
  ds.foldl (fun a c => a * 10 + digitVal c) 0

/-- JSON values as produced by the modelled `JSON.parse`.  Numbers are
kept exactly as sign, decimal mantissa and decimal exponent (the value is
`mant * 10 ^ exp`, negated when `neg`); objects are insertion-ordered
field lists. -/
inductive JsonValue where
  | null
  | bool (b : Bool)
  | num (neg : Bool) (mant : Nat) (exp : Int)
  | str (s : String)
  | arr (elems : List JsonValue)
  | obj (fields : List (String × JsonValue))

/-- Hexadecimal digit value, as in a `\u` escape. -/
def hexVal (c : Char) : Option Nat :=
  if 48 ≤ c.toNat ∧ c.toNat ≤ 57 then some (c.toNat - 48)
  else if 97 ≤ c.toNat ∧ c.toNat ≤ 102 then some (c.toNat - 87)
  else if 65 ≤ c.toNat ∧ c.toNat ≤ 70 then some (c.toNat - 55)
  else none

/-- Prepend a decoded character to the pending string-body result. -/
def consDecoded (d : Char) (o : Option (List Char × List Char)) :
    Option (List Char × List Char) :=
  o.map (fun p => (d :: p.1, p.2))

/-- Body of a JSON string after the opening quote: returns the decoded
characters and the input after the closing quote.  Handles the escape
forms `JSON.parse` accepts and rejects raw control characters, as the
builtin does. -/
def parseStringBody : List Char → Option (List Char × List Char)
  | [] => none
  | c :: t =>
    if c = '"' then some ([], t)
    else if c = '\\' then
      match t with
      | [] => none
      | e :: u =>
        if e = '"' then consDecoded '"' (parseStringBody u)
        else if e = '\\' then consDecoded '\\' (parseStringBody u)
        else if e = '/' then consDecoded '/' (parseStringBody u)
        else if e = 'b' then consDecoded (Char.ofNat 8) (parseStringBody u)
        else if e = 'f' then consDecoded (Char.ofNat 12) (parseStringBody u)
        else if e = 'n' then consDecoded '\n' (parseStringBody u)
        else if e = 'r' then consDecoded (Char.ofNat 13) (parseStringBody u)
        else if e = 't' then consDecoded '\t' (parseStringBody u)
        else if e = 'u' then
          match u with
          | a :: b :: c2 :: d :: u2 =>
            match hexVal a, hexVal b, hexVal c2, hexVal d with
            | some ha, some hb, some hc, some hd =>
              consDecoded (Char.ofNat (((ha * 16 + hb) * 16 + hc) * 16 + hd)) (parseStringBody u2)
            | _, _, _, _ => none
          | _ => none
        else none
    else if c.toNat < 32 then none
    else consDecoded c (parseStringBody t)

/-- Fractional part of a JSON number (empty when there is no dot). -/
def parseFracPart (cs : List Char) : Option (List Char × List Char) :=
  match cs with
  | [] => some ([], [])
  | c :: t =>
    if c = '.' then
      let ds := t.takeWhile isDigitChar
      if ds = [] then none else some (ds, t.dropWhile isDigitChar)
    else some ([], c :: t)

/-- Digits of a signed exponent part. -/
def expDigits (neg : Bool) (u : List Char) : Option (Int × List Char) :=
  let ds := u.takeWhile isDigitChar
  if ds = [] then none
  else some ((if neg then -(digitsToNat ds : Int) else (digitsToNat ds : Int)),
    u.dropWhile isDigitChar)

/-- Exponent part of a JSON number (zero when there is no `e`). -/
def parseExpPart (cs : List Char) : Option (Int × List Char) :=
  match cs with
  | [] => some (0, [])
  | c :: t =>
    if c = 'e' ∨ c = 'E' then
      match t with
      | [] => none
      | d :: u =>
        if d = '-' then expDigits true u
        else if d = '+' then expDigits false u
        else expDigits false (d :: u)
    else some (0, c :: t)

/-- Fraction and exponent after the integer digits of a JSON number. -/
def parseNumTail (neg : Bool) (intDs : List Char) (r0 : List Char) :
    Option ((Bool × Nat × Int) × List Char) :=
  match parseFracPart r0 with
  | none => none
  | some (fracDs, r1) =>
    match parseExpPart r1 with
    | none => none
    | some (ex, r2) =>
      some ((neg, digitsToNat (intDs ++ fracDs), ex - fracDs.length), r2)

/-- Integer digits after the optional sign of a JSON number (the grammar
allows either a single zero or a nonzero-led digit run). -/
def parseNumAfterSign (neg : Bool) : List Char → Option ((Bool × Nat × Int) × List Char)
  | [] => none
  | c :: t =>
    if c = '0' then parseNumTail neg ['0'] t
    else if isDigitChar c then
      parseNumTail neg (c :: t.takeWhile isDigitChar) (t.dropWhile isDigitChar)
    else none

/-- Parse a JSON number token, producing sign, mantissa and exponent. -/
def parseNumberCore : List Char → Option ((Bool × Nat × Int) × List Char)
  | [] => none
  | c :: t => if c = '-' then parseNumAfterSign true t else parseNumAfterSign false (c :: t)

mutual

/-- Recursive-descent model of `JSON.parse`'s value grammar. -/
def parseVal : Nat → List Char → Option (JsonValue × List Char)
  | 0, _ => none
  | fuel + 1, cs =>
    match skipWs cs with
    | [] => none
    | c :: t =>
      if c = 'n' then
        match t with
        | 'u' :: 'l' :: 'l' :: r => some (.null, r)
        | _ => none
      else if c = 't' then
        match t with
        | 'r' :: 'u' :: 'e' :: r => some (.bool true, r)
        | _ => none
      else if c = 'f' then
        match t with
        | 'a' :: 'l' :: 's' :: 'e' :: r => some (.bool false, r)
        | _ => none
      else if c = '"' then
        (parseStringBody t).map (fun p => (.str (String.mk p.1), p.2))
      else if c = '[' then
        match skipWs t with
        | c2 :: r => if c2 = ']' then some (.arr [], r)
                     else (parseElems fuel t).map (fun p => (.arr p.1, p.2))
        | [] => (parseElems fuel t).map (fun p => (.arr p.1, p.2))
      else if c = lbraceC then
        match skipWs t with
        | c2 :: r => if c2 = rbraceC then some (.obj [], r)
                     else (parseFields fuel t).map (fun p => (.obj p.1, p.2))
        | [] => (parseFields fuel t).map (fun p => (.obj p.1, p.2))
      else
        (parseNumberCore (c :: t)).map (fun p => (.num p.1.1 p.1.2.1 p.1.2.2, p.2))

/-- Elements of a non-empty JSON array, up to and including the closing
bracket. -/
def parseElems : Nat → List Char → Option (List JsonValue × List Char)
  | 0, _ => none
  | fuel + 1, cs =>
    match parseVal fuel cs with
    | none => none
    | some (v, r) =>
      match skipWs r with
      | [] => none
      | c2 :: r2 =>
        if c2 = ',' then (parseElems fuel r2).map (fun p => (v :: p.1, p.2))
        else if c2 = ']' then some ([v], r2)
        else none

/-- Fields of a non-empty JSON object, up to and including the closing
brace. -/
def parseFields : Nat → List Char → Option (List (String × JsonValue) × List Char)
  | 0, _ => none
  | fuel + 1, cs =>
    match skipWs cs with
    | [] => none
    | c0 :: t =>
      if c0 = '"' then
        match parseStringBody t with
        | none => none
        | some (k, r) =>
          match skipWs r with
          | [] => none
          | c3 :: r2 =>
            if c3 = ':' then
              match parseVal fuel r2 with
              | none => none
              | some (v, r3) =>
                match skipWs r3 with
                | c4 :: r4 =>
                  if c4 = ',' then
                    (parseFields fuel r4).map (fun p => ((String.mk k, v) :: p.1, p.2))
                  else if c4 = rbraceC then some ([(String.mk k, v)], r4)
                  else none
                | [] => none
            else none
      else none

end

/-- Model of the JavaScript builtin `JSON.parse`: parse one value, then
require only whitespace to remain. -/
def jsonParse (s : String) : Option JsonValue :=
  match parseVal (s.length + 1) s.data with
  | some (v, r) => if skipWs r = [] then some v else none
  | none => none

/-- Hexadecimal digit character of a value below sixteen. -/
def hexChr (n : Nat) : Char :=
  if n < 10 then Char.ofNat (48 + n) else Char.ofNat (87 + n)

/-- Escape one character for a JSON string literal.  `JSON.stringify`
escapes the quote, the backslash and control characters; the model emits
the uniform `\u00XX` form for the latter. -/
def escapeChar (c : Char) : List Char :=
  if c = '"' then ['\\', '"']
  else if c = '\\' then ['\\', '\\']
  else if c.toNat < 32 then
    ['\\', 'u', '0', '0', hexChr (c.toNat / 16), hexChr (c.toNat % 16)]
  else [c]

/-- Escaped body of a JSON string literal. -/
def escapeBody (cs : List Char) : List Char :=
  (cs.map escapeChar).flatten

/-- Quoted, escaped JSON string literal. -/
def printStr (s : String) : List Char :=
  '"' :: escapeBody s.data ++ ['"']

/-- Printed exponent marker of a JSON number (empty for exponent zero). -/
def printExpChars (e : Int) : List Char :=
  if e = 0 then []
  else 'e' :: (if e < 0 then '-' :: natDigitsMSF e.natAbs else natDigitsMSF e.natAbs)

/-- Printed characters of a JSON number. -/
def printNumChars (neg : Bool) (m : Nat) (e : Int) : List Char :=
  (if neg then ['-'] else []) ++ natDigitsMSF m ++ printExpChars e

mutual

/-- Model of `JSON.stringify` (compact form; the indentation argument
only inserts grammar-ignored whitespace). -/
def printVal : JsonValue → List Char
  | .null => ['n', 'u', 'l', 'l']
  | .bool false => ['f', 'a', 'l', 's', 'e']
  | .bool true => ['t', 'r', 'u', 'e']
  | .num neg m e => printNumChars neg m e
  | .str s => printStr s
  | .arr [] => ['[', ']']
  | .arr (v :: vs) => '[' :: printElemsV v vs ++ [']']
  | .obj [] => [lbraceC, rbraceC]
  | .obj (f :: fs) => lbraceC :: printFieldsV f fs ++ [rbraceC]
termination_by v => sizeOf v
decreasing_by all_goals (simp_wf; try omega)

/-- Comma-separated printed array elements. -/
def printElemsV : JsonValue → List JsonValue → List Char
  | v, [] => printVal v
  | v, w :: ws => printVal v ++ ',' :: printElemsV w ws
termination_by v vs => 1 + sizeOf v + sizeOf vs
decreasing_by all_goals (simp_wf; try omega)

/-- Comma-separated printed object fields. -/
def printFieldsV : (String × JsonValue) → List (String × JsonValue) → List Char
  | (k, v), [] => printStr k ++ ':' :: printVal v
  | (k, v), g :: gs => printStr k ++ ':' :: printVal v ++ ',' :: printFieldsV g gs
termination_by f fs => 1 + sizeOf f + sizeOf fs
decreasing_by all_goals (simp_wf; try omega)

end

/-- Printed form of a JSON value as a string. -/
def stringifyJson (v : JsonValue) : String := String.mk (printVal v)

/-- The printed form of a JSON document as a string. -/
theorem stringMk_data (s : String) : String.mk s.data = s := rfl

theorem skipWs_not {c : Char} (l : List Char) (h : isWsChar c = false) :
    skipWs (c :: l) = c :: l := by
  simp [skipWs, h]

theorem takeWhile_all_append (p : Char → Bool) (a b : List Char)
    (h : ∀ c ∈ a, p c = true) : (a ++ b).takeWhile p = a ++ b.takeWhile p := by
  induction a with
  | nil => simp
  | cons c t ih =>
    simp only [List.cons_append, List.takeWhile_cons, h c (by simp), if_true]
    rw [ih (fun x hx => h x (by simp [hx]))]

theorem dropWhile_all_append (p : Char → Bool) (a b : List Char)
    (h : ∀ c ∈ a, p c = true) : (a ++ b).dropWhile p = b.dropWhile p := by
  induction a with
  | nil => simp
  | cons c t ih =>
    simp only [List.cons_append, List.dropWhile_cons, h c (by simp), if_pos]
    exact ih (fun x hx => h x (by simp [hx]))

theorem takeWhile_not_head (p : Char → Bool) (b : List Char)
    (h : ∀ c, b.head? = some c → p c = false) : b.takeWhile p = [] := by
  cases b with
  | nil => rfl
  | cons c t => simp [List.takeWhile_cons, h c rfl]

theorem dropWhile_not_head (p : Char → Bool) (b : List Char)
    (h : ∀ c, b.head? = some c → p c = false) : b.dropWhile p = b := by
  cases b with
  | nil => rfl
  | cons c t => simp [List.dropWhile_cons, h c rfl]

theorem digitChr_toNat {d : Nat} (h : d < 10) : (digitChr d).toNat = 48 + d := by
  interval_cases d <;> decide

theorem isDigitChar_digitChr {d : Nat} (h : d < 10) : isDigitChar (digitChr d) = true := by
  interval_cases d <;> decide

theorem digitVal_digitChr {d : Nat} (h : d < 10) : digitVal (digitChr d) = d := by
  interval_cases d <;> decide

theorem digitChr_ne_zero {d : Nat} (h : d < 10) (h0 : d ≠ 0) : digitChr d ≠ '0' := by
  interval_cases d <;> simp_all <;> decide

theorem natDigitsMSF_digits (m : Nat) : ∀ c ∈ natDigitsMSF m, isDigitChar c = true := by
  induction m using natDigitsMSF.induct with
  | case1 m h =>
    intro c hc
    rw [natDigitsMSF, dif_pos h] at hc
    simp at hc
    subst hc
    exact isDigitChar_digitChr h
  | case2 m h ih =>
    intro c hc
    rw [natDigitsMSF, dif_neg h] at hc
    rcases List.mem_append.mp hc with h1 | h2
    · exact ih c h1
    · simp at h2
      subst h2
      exact isDigitChar_digitChr (Nat.mod_lt _ (by omega))

theorem natDigitsMSF_ne_nil (m : Nat) : natDigitsMSF m ≠ [] := by
  rw [natDigitsMSF]
  split <;> simp

theorem digitsToNat_natDigitsMSF (m : Nat) : digitsToNat (natDigitsMSF m) = m := by
  induction m using natDigitsMSF.induct with
  | case1 m h =>
    rw [natDigitsMSF, dif_pos h]
    simp [digitsToNat, digitVal_digitChr h]
  | case2 m h ih =>
    rw [natDigitsMSF, dif_neg h]
    unfold digitsToNat at ih ⊢
    rw [List.foldl_append, ih]
    simp [digitVal_digitChr (Nat.mod_lt m (by omega))]
    omega

theorem natDigitsMSF_head (m : Nat) (h : m ≠ 0) :
    ∃ c cs, natDigitsMSF m = c :: cs ∧ isDigitChar c = true ∧ c ≠ '0' := by
  induction m using natDigitsMSF.induct with
  | case1 m hlt =>
    refine ⟨digitChr m, [], ?_, isDigitChar_digitChr hlt, digitChr_ne_zero hlt h⟩
    rw [natDigitsMSF, dif_pos hlt]
  | case2 m hlt ih =>
    obtain ⟨c, cs, hEq, hDig, hNe⟩ := ih (by omega)
    refine ⟨c, cs ++ [digitChr (m % 10)], ?_, hDig, hNe⟩
    rw [natDigitsMSF, dif_neg hlt, hEq]
    rfl

theorem isDigitChar_bounds {c : Char} (h : isDigitChar c = true) :
    48 ≤ c.toNat ∧ c.toNat ≤ 57 := by
  simpa [isDigitChar, Bool.and_eq_true, decide_eq_true_eq] using h

theorem char_ne_of_toNat_ne {c d : Char} (h : c.toNat ≠ d.toNat) : c ≠ d :=
  fun he => h (he ▸ rfl)

theorem ws_toNat {c : Char} (h : isWsChar c = true) : c.toNat < 33 := by
  simp only [isWsChar, Bool.or_eq_true, decide_eq_true_eq] at h
  rcases h with ((h | h) | h) | h <;> subst h <;> decide

theorem digit_notWs {c : Char} (h : isDigitChar c = true) : isWsChar c = false := by
  cases hw : isWsChar c with
  | false => rfl
  | true =>
    have h1 := ws_toNat hw
    have h2 := isDigitChar_bounds h
    omega

theorem digit_ne_char {c d : Char} (h : isDigitChar c = true)
    (hd : d.toNat < 48 ∨ 57 < d.toNat) : c ≠ d := by
  intro he
  subst he
  have hb := isDigitChar_bounds h
  omega

/-- A remainder is safe after a printed number if it cannot extend the
number token. -/
def safeAfter : List Char → Bool
  | [] => true
  | c :: _ => !(isDigitChar c || c = '.' || c = 'e' || c = 'E')

theorem safeAfter_facts {c : Char} {t : List Char} (h : safeAfter (c :: t) = true) :
    isDigitChar c = false ∧ c ≠ '.' ∧ c ≠ 'e' ∧ c ≠ 'E' := by
  simp only [safeAfter, Bool.not_eq_true', Bool.or_eq_false_iff,
    decide_eq_false_iff_not] at h
  exact ⟨h.1.1.1, h.1.1.2, h.1.2, h.2⟩

theorem takeWhile_digits_safe (rest : List Char) (h : safeAfter rest = true) :
    rest.takeWhile isDigitChar = [] := by
  apply takeWhile_not_head
  intro c hc
  cases rest with
  | nil => simp at hc
  | cons d t =>
    simp at hc
    subst hc
    exact (safeAfter_facts h).1

theorem dropWhile_digits_safe (rest : List Char) (h : safeAfter rest = true) :
    rest.dropWhile isDigitChar = rest := by
  apply dropWhile_not_head
  intro c hc
  cases rest with
  | nil => simp at hc
  | cons d t =>
    simp at hc
    subst hc
    exact (safeAfter_facts h).1

theorem takeWhile_msf_append (a : Nat) (rest : List Char) (h : safeAfter rest = true) :
    (natDigitsMSF a ++ rest).takeWhile isDigitChar = natDigitsMSF a := by
  rw [takeWhile_all_append _ _ _ (natDigitsMSF_digits a), takeWhile_digits_safe rest h,
    List.append_nil]

theorem dropWhile_msf_append (a : Nat) (rest : List Char) (h : safeAfter rest = true) :
    (natDigitsMSF a ++ rest).dropWhile isDigitChar = rest := by
  rw [dropWhile_all_append _ _ _ (natDigitsMSF_digits a), dropWhile_digits_safe rest h]

theorem expDigits_print_true (a : Nat) (rest : List Char)
    (h : safeAfter rest = true) :
    expDigits true (natDigitsMSF a ++ rest) = some (-(a : Int), rest) := by
  unfold expDigits
  rw [takeWhile_msf_append a rest h, dropWhile_msf_append a rest h]
  simp [natDigitsMSF_ne_nil a, digitsToNat_natDigitsMSF]

theorem expDigits_print_false (a : Nat) (rest : List Char)
    (h : safeAfter rest = true) :
    expDigits false (natDigitsMSF a ++ rest) = some ((a : Int), rest) := by
  unfold expDigits
  rw [takeWhile_msf_append a rest h, dropWhile_msf_append a rest h]
  simp [natDigitsMSF_ne_nil a, digitsToNat_natDigitsMSF]

theorem printExpChars_zero : printExpChars 0 = [] := by
  unfold printExpChars
  rw [if_pos rfl]

theorem printExpChars_negE {e : Int} (h : e < 0) :
    printExpChars e = 'e' :: '-' :: natDigitsMSF e.natAbs := by
  unfold printExpChars
  rw [if_neg (by omega), if_pos h]

theorem printExpChars_posE {e : Int} (h : 0 < e) :
    printExpChars e = 'e' :: natDigitsMSF e.natAbs := by
  unfold printExpChars
  rw [if_neg (by omega), if_neg (by omega)]

theorem parseExpPart_print (e : Int) (rest : List Char) (h : safeAfter rest = true) :
    parseExpPart (printExpChars e ++ rest) = some (e, rest) := by
  rcases lt_trichotomy e 0 with hneg | h0 | hpos
  · rw [printExpChars_negE hneg]
    simp only [List.cons_append, parseExpPart, true_or, if_true]
    rw [expDigits_print_true e.natAbs rest h]
    have he : -(e.natAbs : Int) = e := by omega
    rw [he]
  · subst h0
    rw [printExpChars_zero, List.nil_append]
    cases rest with
    | nil => rfl
    | cons c t =>
      have hf := safeAfter_facts h
      simp only [parseExpPart]
      rw [if_neg (by simp [hf.2.2.1, hf.2.2.2])]
  · rw [printExpChars_posE hpos]
    cases hmsf : natDigitsMSF e.natAbs with
    | nil => exact absurd hmsf (natDigitsMSF_ne_nil _)
    | cons c cs =>
      have hdig : isDigitChar c = true := natDigitsMSF_digits _ c (by rw [hmsf]; simp)
      simp only [List.cons_append, parseExpPart, true_or, if_true]
      rw [if_neg (digit_ne_char hdig (by decide)), if_neg (digit_ne_char hdig (by decide))]
      rw [show c :: (cs ++ rest) = natDigitsMSF e.natAbs ++ rest by rw [hmsf]; rfl]
      rw [expDigits_print_false e.natAbs rest h]
      have he : (e.natAbs : Int) = e := by omega
      rw [he]

theorem parseFracPart_print (e : Int) (rest : List Char) (h : safeAfter rest = true) :
    parseFracPart (printExpChars e ++ rest) = some ([], printExpChars e ++ rest) := by
  rcases lt_trichotomy e 0 with hneg | h0 | hpos
  · rw [printExpChars_negE hneg]
    simp only [List.cons_append, parseFracPart]
    rw [if_neg (by decide)]
  · subst h0
    rw [printExpChars_zero, List.nil_append]
    cases rest with
    | nil => rfl
    | cons c t =>
      have hf := safeAfter_facts h
      simp only [parseFracPart]
      rw [if_neg hf.2.1]
  · rw [printExpChars_posE hpos]
    simp only [List.cons_append, parseFracPart]
    rw [if_neg (by decide)]

theorem parseNumTail_print (neg : Bool) (m : Nat) (e : Int) (rest : List Char)
    (h : safeAfter rest = true) :
    parseNumTail neg (natDigitsMSF m) (printExpChars e ++ rest) =
      some ((neg, m, e), rest) := by
  simp only [parseNumTail, parseFracPart_print e rest h, parseExpPart_print e rest h]
  simp [digitsToNat_natDigitsMSF]

theorem natDigitsMSF_zero : natDigitsMSF 0 = ['0'] := by
  rw [natDigitsMSF]
  rfl

theorem printExpChars_not_digit_head (e : Int) (rest : List Char)
    (h : safeAfter rest = true) :
    (printExpChars e ++ rest).takeWhile isDigitChar = [] ∧
      (printExpChars e ++ rest).dropWhile isDigitChar = printExpChars e ++ rest := by
  have hE : isDigitChar 'e' = false := by decide
  rcases lt_trichotomy e 0 with hneg | h0 | hpos
  · rw [printExpChars_negE hneg]
    constructor <;> simp [List.takeWhile_cons, List.dropWhile_cons, hE]
  · subst h0
    rw [printExpChars_zero, List.nil_append]
    exact ⟨takeWhile_digits_safe rest h, dropWhile_digits_safe rest h⟩
  · rw [printExpChars_posE hpos]
    constructor <;> simp [List.takeWhile_cons, List.dropWhile_cons, hE]

theorem parseNumAfterSign_print (neg : Bool) (m : Nat) (e : Int) (rest : List Char)
    (h : safeAfter rest = true) :
    parseNumAfterSign neg (natDigitsMSF m ++ printExpChars e ++ rest) =
      some ((neg, m, e), rest) := by
  obtain ⟨hexp, hexpd⟩ := printExpChars_not_digit_head e rest h
  by_cases hm : m = 0
  · subst hm
    rw [natDigitsMSF_zero]
    simp only [List.cons_append, List.nil_append, parseNumAfterSign, if_true]
    rw [show (['0'] : List Char) = natDigitsMSF 0 from natDigitsMSF_zero.symm]
    exact parseNumTail_print neg 0 e rest h
  · obtain ⟨c, cs, hmsf, hdig, hne0⟩ := natDigitsMSF_head m hm
    have hcs : ∀ x ∈ cs, isDigitChar x = true := by
      intro x hx
      exact natDigitsMSF_digits m x (by rw [hmsf]; simp [hx])
    rw [hmsf]
    simp only [List.cons_append, List.append_assoc, parseNumAfterSign]
    rw [if_neg hne0, if_pos hdig]
    rw [takeWhile_all_append _ _ _ hcs, hexp, List.append_nil]
    rw [dropWhile_all_append _ _ _ hcs, hexpd]
    rw [show c :: cs = natDigitsMSF m from hmsf.symm]
    exact parseNumTail_print neg m e rest h

theorem parseNumberCore_print (neg : Bool) (m : Nat) (e : Int) (rest : List Char)
    (h : safeAfter rest = true) :
    parseNumberCore (printNumChars neg m e ++ rest) = some ((neg, m, e), rest) := by
  unfold printNumChars
  cases neg with
  | true =>
    simp only [if_true, List.cons_append, List.nil_append, List.append_assoc,
      parseNumberCore]
    rw [← List.append_assoc]
    exact parseNumAfterSign_print true m e rest h
  | false =>
    simp only [Bool.false_eq_true, if_false, List.nil_append]
    cases hmsf : natDigitsMSF m with
    | nil => exact absurd hmsf (natDigitsMSF_ne_nil m)
    | cons c cs =>
      have hdig : isDigitChar c = true := natDigitsMSF_digits m c (by rw [hmsf]; simp)
      simp only [List.cons_append, parseNumberCore]
      rw [if_neg (digit_ne_char hdig (by decide))]
      rw [show c :: (cs ++ printExpChars e ++ rest) =
        natDigitsMSF m ++ printExpChars e ++ rest by rw [hmsf]; simp]
      exact parseNumAfterSign_print false m e rest h

theorem hexVal_hexChr {n : Nat} (h : n < 16) : hexVal (hexChr n) = some n := by
  interval_cases n <;> decide

theorem escapeBody_cons (c : Char) (t : List Char) :
    escapeBody (c :: t) = escapeChar c ++ escapeBody t := by
  simp [escapeBody]

theorem parseStringBody_escape (cs rest : List Char) :
    parseStringBody (escapeBody cs ++ '"' :: rest) = some (cs, rest) := by
  induction cs with
  | nil =>
    rw [show escapeBody [] = [] from rfl, List.nil_append, parseStringBody.eq_def]
    simp
  | cons c t ih =>
    rw [escapeBody_cons, List.append_assoc]
    by_cases hq : c = '"'
    · subst hq
      rw [show escapeChar '"' = ['\\', '"'] from rfl]
      rw [show (['\\', '"'] : List Char) ++ (escapeBody t ++ '"' :: rest) =
        '\\' :: '"' :: (escapeBody t ++ '"' :: rest) from rfl]
      rw [parseStringBody.eq_def]
      simp [ih, consDecoded]
    · by_cases hb : c = '\\'
      · subst hb
        rw [show escapeChar '\\' = ['\\', '\\'] from rfl]
        rw [show (['\\', '\\'] : List Char) ++ (escapeBody t ++ '"' :: rest) =
          '\\' :: '\\' :: (escapeBody t ++ '"' :: rest) from rfl]
        rw [parseStringBody.eq_def]
        simp [ih, consDecoded]
      · by_cases hctrl : c.toNat < 32
        · rw [show escapeChar c =
            ['\\', 'u', '0', '0', hexChr (c.toNat / 16), hexChr (c.toNat % 16)] from by
              simp [escapeChar, hq, hb, hctrl]]
          rw [show (['\\', 'u', '0', '0', hexChr (c.toNat / 16), hexChr (c.toNat % 16)] :
              List Char) ++ (escapeBody t ++ '"' :: rest) =
            '\\' :: 'u' :: '0' :: '0' :: hexChr (c.toNat / 16) :: hexChr (c.toNat % 16) ::
              (escapeBody t ++ '"' :: rest) from rfl]
          rw [parseStringBody.eq_def]
          have h1 : hexVal (hexChr (c.toNat / 16)) = some (c.toNat / 16) :=
            hexVal_hexChr (by omega)
          have h2 : hexVal (hexChr (c.toNat % 16)) = some (c.toNat % 16) :=
            hexVal_hexChr (by omega)
          simp [show hexVal '0' = some 0 from by decide, h1, h2, ih, consDecoded]
          rw [show c.toNat / 16 * 16 + c.toNat % 16 = c.toNat from by omega]
          exact Char.ofNat_toNat c
        · rw [show escapeChar c = [c] from by simp [escapeChar, hq, hb, hctrl]]
          rw [show ([c] : List Char) ++ (escapeBody t ++ '"' :: rest) =
            c :: (escapeBody t ++ '"' :: rest) from rfl]
          rw [parseStringBody.eq_def]
          simp only [if_neg hq, if_neg hb, if_neg hctrl, ih, consDecoded]
          rfl

theorem printNumChars_head (neg : Bool) (m : Nat) (e : Int) :
    ∃ c cs, printNumChars neg m e = c :: cs ∧ (c = '-' ∨ isDigitChar c = true) := by
  cases neg with
  | true =>
    exact ⟨'-', natDigitsMSF m ++ printExpChars e, by simp [printNumChars], Or.inl rfl⟩
  | false =>
    cases hmsf : natDigitsMSF m with
    | nil => exact absurd hmsf (natDigitsMSF_ne_nil m)
    | cons c cs =>
      have hdig : isDigitChar c = true := natDigitsMSF_digits m c (by rw [hmsf]; simp)
      exact ⟨c, cs ++ printExpChars e, by simp [printNumChars, hmsf], Or.inr hdig⟩

theorem printFieldsV_head (f : String × JsonValue) (fs : List (String × JsonValue)) :
    ∃ ys, printFieldsV f fs = '"' :: ys := by
  obtain ⟨k, v⟩ := f
  cases fs <;> simp [printFieldsV, printStr]

theorem printVal_head (v : JsonValue) :
    ∃ c cs, printVal v = c :: cs ∧ isWsChar c = false ∧ c ≠ ']' := by
  cases v with
  | null => exact ⟨'n', ['u', 'l', 'l'], by simp [printVal], by decide, by decide⟩
  | bool b =>
    cases b with
    | false => exact ⟨'f', ['a', 'l', 's', 'e'], by simp [printVal], by decide, by decide⟩
    | true => exact ⟨'t', ['r', 'u', 'e'], by simp [printVal], by decide, by decide⟩
  | num neg m e =>
    obtain ⟨c, cs, hEq, hc⟩ := printNumChars_head neg m e
    refine ⟨c, cs, by simp [printVal, hEq], ?_, ?_⟩
    · rcases hc with h | h
      · subst h; decide
      · exact digit_notWs h
    · rcases hc with h | h
      · subst h; decide
      · exact digit_ne_char h (by decide)
  | str s =>
    exact ⟨'"', escapeBody s.data ++ ['"'], by simp [printVal, printStr], by decide,
      by decide⟩
  | arr es =>
    cases es with
    | nil => exact ⟨'[', [']'], by simp [printVal], by decide, by decide⟩
    | cons v vs =>
      exact ⟨'[', printElemsV v vs ++ [']'], by simp [printVal], by decide, by decide⟩
  | obj fs =>
    cases fs with
    | nil => exact ⟨lbraceC, [rbraceC], by simp [printVal], by decide, by decide⟩
    | cons f fs =>
      exact ⟨lbraceC, printFieldsV f fs ++ [rbraceC], by simp [printVal], by decide,
        by decide⟩

theorem printVal_length_pos (v : JsonValue) : 0 < (printVal v).length := by
  obtain ⟨c, cs, h, _, _⟩ := printVal_head v
  simp [h]

theorem printStr_length (s : String) : 2 ≤ (printStr s).length := by
  simp [printStr]

theorem safeAfter_cons_of {c : Char} (x : List Char) (h1 : isDigitChar c = false)
    (h2 : c ≠ '.') (h3 : c ≠ 'e') (h4 : c ≠ 'E') : safeAfter (c :: x) = true := by
  simp [safeAfter, h1, h2, h3, h4]

theorem safeAfter_comma (x : List Char) : safeAfter (',' :: x) = true :=
  safeAfter_cons_of x (by decide) (by decide) (by decide) (by decide)

theorem safeAfter_rbrack (x : List Char) : safeAfter (']' :: x) = true :=
  safeAfter_cons_of x (by decide) (by decide) (by decide) (by decide)

theorem safeAfter_rbrace (x : List Char) : safeAfter (rbraceC :: x) = true :=
  safeAfter_cons_of x (by decide) (by decide) (by decide) (by decide)

theorem parse_print_fuel : ∀ fuel : Nat,
    (∀ (v : JsonValue) (rest : List Char), safeAfter rest = true →
      (printVal v).length < fuel →
      parseVal fuel (printVal v ++ rest) = some (v, rest)) ∧
    (∀ (v : JsonValue) (vs : List JsonValue) (rest : List Char),
      (printElemsV v vs).length + 1 < fuel →
      parseElems fuel (printElemsV v vs ++ ']' :: rest) = some (v :: vs, rest)) ∧
    (∀ (f : String × JsonValue) (fs : List (String × JsonValue)) (rest : List Char),
      (printFieldsV f fs).length + 1 < fuel →
      parseFields fuel (printFieldsV f fs ++ rbraceC :: rest) = some (f :: fs, rest)) := by
  intro fuel
  induction fuel with
  | zero => refine ⟨?_, ?_, ?_⟩ <;> (intros; omega)
  | succ fuel ih =>
    obtain ⟨ih1, ih2, ih3⟩ := ih
    refine ⟨?_, ?_, ?_⟩
    · intro v rest hsafe hlen
      cases v with
      | null =>
        rw [show printVal .null ++ rest = 'n' :: 'u' :: 'l' :: 'l' :: rest from by
          simp [printVal]]
        simp [parseVal, skipWs, isWsChar]
      | bool b =>
        cases b with
        | false =>
          rw [show printVal (.bool false) ++ rest = 'f' :: 'a' :: 'l' :: 's' :: 'e' :: rest
            from by simp [printVal]]
          simp [parseVal, skipWs, isWsChar]
        | true =>
          rw [show printVal (.bool true) ++ rest = 't' :: 'r' :: 'u' :: 'e' :: rest from by
            simp [printVal]]
          simp [parseVal, skipWs, isWsChar]
      | num neg m e =>
        obtain ⟨c, cs, hEq, hc⟩ := printNumChars_head neg m e
        have hshape : printVal (.num neg m e) ++ rest = c :: (cs ++ rest) := by
          simp [printVal, hEq]
        rw [hshape]
        simp only [parseVal]
        have hws : isWsChar c = false := by
          rcases hc with h | h
          · subst h; decide
          · exact digit_notWs h
        rw [skipWs_not _ hws]
        try dsimp only
        have hn : c ≠ 'n' := by
          rcases hc with h | h
          · subst h; decide
          · exact digit_ne_char h (by decide)
        have ht : c ≠ 't' := by
          rcases hc with h | h
          · subst h; decide
          · exact digit_ne_char h (by decide)
        have hf : c ≠ 'f' := by
          rcases hc with h | h
          · subst h; decide
          · exact digit_ne_char h (by decide)
        have hq : c ≠ '"' := by
          rcases hc with h | h
          · subst h; decide
          · exact digit_ne_char h (by decide)
        have hbk : c ≠ '[' := by
          rcases hc with h | h
          · subst h; decide
          · exact digit_ne_char h (by decide)
        have hbr : c ≠ lbraceC := by
          rcases hc with h | h
          · subst h; decide
          · exact digit_ne_char h (by decide)
        rw [if_neg hn, if_neg ht, if_neg hf, if_neg hq, if_neg hbk, if_neg hbr]
        rw [show c :: (cs ++ rest) = printNumChars neg m e ++ rest from by rw [hEq]; rfl]
        rw [parseNumberCore_print neg m e rest hsafe]
        rfl
      | str s =>
        have hx : printVal (.str s) ++ rest = '"' :: (escapeBody s.data ++ '"' :: rest) := by
          simp [printVal, printStr]
        rw [hx]
        simp only [parseVal]
        rw [skipWs_not _ (by decide)]
        simp [parseStringBody_escape]
      | arr es =>
        cases es with
        | nil =>
          rw [show printVal (.arr []) ++ rest = '[' :: ']' :: rest from by simp [printVal]]
          simp [parseVal, skipWs, isWsChar]
        | cons v vs =>
          have hx : printVal (.arr (v :: vs)) ++ rest =
              '[' :: (printElemsV v vs ++ ']' :: rest) := by
            simp [printVal]
          rw [hx]
          simp only [parseVal]
          rw [skipWs_not _ (by decide)]
          try dsimp only
          rw [if_neg (by decide), if_neg (by decide), if_neg (by decide),
            if_neg (by decide), if_pos rfl]
          obtain ⟨c, cs, hEq, hws, hne⟩ := printVal_head v
          have hcons : ∃ xs, printElemsV v vs ++ ']' :: rest = c :: xs := by
            cases vs with
            | nil => exact ⟨cs ++ ']' :: rest, by simp [printElemsV, hEq]⟩
            | cons w ws =>
              exact ⟨cs ++ ',' :: printElemsV w ws ++ ']' :: rest, by
                simp [printElemsV, hEq]⟩
          obtain ⟨xs, hxs⟩ := hcons
          rw [hxs, skipWs_not _ hws]
          try dsimp only
          have hlen2 : (printElemsV v vs).length + 1 < fuel := by
            have : (printVal (.arr (v :: vs))).length = (printElemsV v vs).length + 2 := by
              simp [printVal]
            omega
          rw [if_neg hne, ← hxs, ih2 v vs rest hlen2]
          rfl
      | obj fs =>
        cases fs with
        | nil =>
          rw [show printVal (.obj []) ++ rest = lbraceC :: rbraceC :: rest from by
            simp [printVal]]
          simp [parseVal, skipWs, isWsChar, lbraceC, rbraceC]
        | cons f fs =>
          have hx : printVal (.obj (f :: fs)) ++ rest =
              lbraceC :: (printFieldsV f fs ++ rbraceC :: rest) := by
            simp [printVal]
          rw [hx]
          simp only [parseVal]
          rw [skipWs_not _ (by decide)]
          try dsimp only
          rw [if_neg (by decide), if_neg (by decide), if_neg (by decide),
            if_neg (by decide), if_neg (by decide), if_pos rfl]
          obtain ⟨ys, hys⟩ := printFieldsV_head f fs
          rw [hys]
          rw [show ('"' :: ys) ++ rbraceC :: rest = '"' :: (ys ++ rbraceC :: rest) from rfl]
          rw [skipWs_not _ (by decide)]
          try dsimp only
          rw [if_neg (by decide)]
          have hlen2 : (printFieldsV f fs).length + 1 < fuel := by
            have : (printVal (.obj (f :: fs))).length = (printFieldsV f fs).length + 2 := by
              simp [printVal]
            omega
          have hres := ih3 f fs rest hlen2
          rw [show '"' :: (ys ++ rbraceC :: rest) = printFieldsV f fs ++ rbraceC :: rest
            from by rw [hys]; rfl]
          rw [hres]
          rfl
    · intro v vs rest hlen
      cases vs with
      | nil =>
        simp only [printElemsV] at hlen ⊢
        simp only [parseElems]
        rw [ih1 v (']' :: rest) (safeAfter_rbrack rest) (by omega)]
        try dsimp only
        rw [skipWs_not _ (by decide)]
        try dsimp only
        rw [if_neg (by decide), if_pos rfl]
      | cons w ws =>
        have hx : printElemsV v (w :: ws) ++ ']' :: rest =
            printVal v ++ ',' :: (printElemsV w ws ++ ']' :: rest) := by
          simp [printElemsV]
        rw [hx]
        simp only [parseElems]
        have hlenv : (printVal v).length < fuel := by
          have : (printElemsV v (w :: ws)).length =
              (printVal v).length + 1 + (printElemsV w ws).length := by
            simp [printElemsV]
            omega
          omega
        rw [ih1 v (',' :: (printElemsV w ws ++ ']' :: rest)) (safeAfter_comma _) hlenv]
        try dsimp only
        rw [skipWs_not _ (by decide)]
        try dsimp only
        rw [if_pos rfl]
        have hlenw : (printElemsV w ws).length + 1 < fuel := by
          have h1 : (printElemsV v (w :: ws)).length =
              (printVal v).length + 1 + (printElemsV w ws).length := by
            simp [printElemsV]
            omega
          have h2 := printVal_length_pos v
          omega
        rw [ih2 w ws rest hlenw]
        rfl
    · intro f fs rest hlen
      obtain ⟨k, v⟩ := f
      cases fs with
      | nil =>
        have hx : printFieldsV (k, v) [] ++ rbraceC :: rest =
            '"' :: (escapeBody k.data ++ '"' :: (':' :: (printVal v ++ rbraceC :: rest))) := by
          simp [printFieldsV, printStr]
        rw [hx]
        simp only [parseFields]
        rw [skipWs_not _ (by decide)]
        try dsimp only
        rw [if_pos rfl]
        rw [parseStringBody_escape k.data (':' :: (printVal v ++ rbraceC :: rest))]
        try dsimp only
        rw [skipWs_not _ (by decide)]
        try dsimp only
        rw [if_pos rfl]
        have hlenv : (printVal v).length < fuel := by
          have : (printFieldsV (k, v) []).length =
              (printStr k).length + 1 + (printVal v).length := by
            simp [printFieldsV]
            omega
          have h2 := printStr_length k
          omega
        rw [ih1 v (rbraceC :: rest) (safeAfter_rbrace rest) hlenv]
        try dsimp only
        rw [skipWs_not _ (by decide)]
        try dsimp only
        rw [if_neg (by decide), if_pos rfl]
      | cons g gs =>
        have hx : printFieldsV (k, v) (g :: gs) ++ rbraceC :: rest =
            '"' :: (escapeBody k.data ++ '"' ::
              (':' :: (printVal v ++ ',' :: (printFieldsV g gs ++ rbraceC :: rest)))) := by
          simp [printFieldsV, printStr]
        rw [hx]
        simp only [parseFields]
        rw [skipWs_not _ (by decide)]
        try dsimp only
        rw [if_pos rfl]
        rw [parseStringBody_escape k.data
          (':' :: (printVal v ++ ',' :: (printFieldsV g gs ++ rbraceC :: rest)))]
        try dsimp only
        rw [skipWs_not _ (by decide)]
        try dsimp only
        rw [if_pos rfl]
        have hlenv : (printVal v).length < fuel := by
          have : (printFieldsV (k, v) (g :: gs)).length =
              (printStr k).length + 1 + (printVal v).length + 1 +
                (printFieldsV g gs).length := by
            simp [printFieldsV]
            omega
          have h2 := printStr_length k
          omega
        rw [ih1 v (',' :: (printFieldsV g gs ++ rbraceC :: rest)) (safeAfter_comma _) hlenv]
        try dsimp only
        rw [skipWs_not _ (by decide)]
        try dsimp only
        rw [if_pos rfl]
        have hleng : (printFieldsV g gs).length + 1 < fuel := by
          have h1 : (printFieldsV (k, v) (g :: gs)).length =
              (printStr k).length + 1 + (printVal v).length + 1 +
                (printFieldsV g gs).length := by
            simp [printFieldsV]
            omega
          have h2 := printStr_length k
          omega
        rw [ih3 g gs rest hleng]
        rfl

/-- Round trip of the modelled `JSON.parse` and `JSON.stringify`: printing
any value and reparsing it yields the value back. -/
theorem jsonParse_stringify (v : JsonValue) : jsonParse (stringifyJson v) = some v := by
  unfold jsonParse stringifyJson
  have hlen : (String.mk (printVal v)).length = (printVal v).length := rfl
  have hdata : (String.mk (printVal v)).data = printVal v := rfl
  rw [hlen, hdata]
  have h := (parse_print_fuel ((printVal v).length + 1)).1 v [] rfl (by omega)
  rw [List.append_nil] at h
  rw [h]
  rfl

/-- Whitespace as JavaScript's `trim` and the regex class `\s` treat it
(ASCII subset; the exotic unicode spaces never occur in these inputs). -/
def isJsWsChar (c : Char) : Bool :=
  c = ' ' || c = '\t' || c = '\n' || c = '\r' || c = Char.ofNat 11 || c = Char.ofNat 12

/-- Model of JavaScript `String.prototype.trim`. -/
def trimChars (l : List Char) : List Char :=
  ((l.dropWhile isJsWsChar).reverse.dropWhile isJsWsChar).reverse

/-- String-level JavaScript trim. -/
def trimJS (s : String) : String := String.mk (trimChars s.data)

/-- Model of JavaScript `split('\n')`. -/
def splitOnNl : List Char → List (List Char)
  | [] => [[]]
  | c :: t =>
    if c = '\n' then [] :: splitOnNl t
    else
      match splitOnNl t with
      | h :: r => (c :: h) :: r
      | [] => [[c]]

/-- Model of JavaScript `split` on a single character. -/
def splitOnChar (sep : Char) : List Char → List (List Char)
  | [] => [[]]
  | c :: t =>
    if c = sep then [] :: splitOnChar sep t
    else
      match splitOnChar sep t with
      | h :: r => (c :: h) :: r
      | [] => [[c]]

/-- ASCII lower-casing, as `toLowerCase` acts on these file names. -/
def toLowerStr (s : String) : String := String.mk (s.data.map Char.toLower)

/-- JavaScript `String.prototype.endsWith`. -/
def endsWithStr (suffix s : String) : Bool := suffix.data.isSuffixOf s.data

/-- JavaScript `String.prototype.startsWith`. -/
def startsWithStr (pre s : String) : Bool := pre.data.isPrefixOf s.data

/-- UTF-8 byte length of a string, as `new Blob([s]).size` computes it. -/
def utf8Len (s : String) : Nat := (s.data.map Char.utf8Size).sum

/-- Error severity, as the `severity` string field of the source. -/
inductive Severity where
  | error
  | warning
deriving DecidableEq, Repr

/-- Translation of the `ParseError` interface. -/
structure ParseError where
  line : Option Nat := none
  column : Option Nat := none
  message : String
  severity : Severity
deriving DecidableEq, Repr

/-- Translation of the `ColumnDef` interface (for CSV documents). -/
structure ColumnDef where
  field : String
  headerName : String
  type : String
  width : Option Nat := none
  sortable : Bool := true
  filterable : Bool := true
deriving DecidableEq, Repr

/-- Translation of the `DocumentMeta` interface. -/
structure DocumentMeta where
  encoding : Option String := none
  lineCount : Option Nat := none
  delimiter : Option Char := none
  hasHeaders : Option Bool := none
  columns : Option (List ColumnDef) := none

/-- Translation of the `DataRecord` interface. -/
structure DataRecord where
  index : Nat
  data : JsonValue
  raw : String
  errors : List ParseError
  size : Nat

/-- Translation of the `DataDocument` interface.  The `loadedAt` clock
field is omitted: it never influences behaviour. -/
structure DataDocument where
  id : String
  fileName : String
  format : String
  records : List DataRecord
  meta : DocumentMeta
  isMultiRecord : Bool
  totalRecords : Nat
  totalSize : Nat

/-- Model of `generateId`: the source derives an id from the clock and a
random number; no behaviour depends on the value. -/
def generateId : String := "id"

/-- Translation of the `ParseOptions` interface.  `delimiter` is a single
character (the library is always given one-character delimiters). -/
structure ParseOptions where
  delimiter : Option Char := none
  hasHeaders : Option Bool := none
  maxRecords : Option Nat := none
  lenient : Option Bool := none

/-- Translation of the `ParseResult` interface. -/
structure ParseResult where
  success : Bool
  document : Option DataDocument := none
  errors : List ParseError

theorem length_dropWhile_le (p : Char → Bool) (l : List Char) :
    (l.dropWhile p).length ≤ l.length := by
  induction l with
  | nil => simp
  | cons c t ih =>
    rw [List.dropWhile_cons]
    split
    · simp only [List.length_cons]
      omega
    · simp

/-- Match `\s*lit` at the head of the input, returning what follows. -/
def matchWsLit (lit t : List Char) : Option (List Char) :=
  if lit.isPrefixOf (t.dropWhile isJsWsChar) then
    some ((t.dropWhile isJsWsChar).drop lit.length)
  else none

theorem matchWsLit_len {lit t r : List Char} (h : matchWsLit lit t = some r) :
    r.length ≤ t.length := by
  unfold matchWsLit at h
  split at h
  · cases h
    have h1 := length_dropWhile_le isJsWsChar t
    have h2 : (List.drop lit.length (t.dropWhile isJsWsChar)).length ≤
        (t.dropWhile isJsWsChar).length := by
      rw [List.length_drop]
      omega
    omega
  · cases h

/-- One global replacement pass of the regex `:\s*lit` by `repl`, as
`String.prototype.replace` with a global regex performs it. -/
def replColGo (lit repl : List Char) : Nat → List Char → List Char
  | 0, rest => rest
  | fuel + 1, cs =>
    match cs with
    | [] => []
    | c :: t =>
      if c = ':' then
        match matchWsLit lit t with
        | some r => repl ++ replColGo lit repl fuel r
        | none => c :: replColGo lit repl fuel t
      else c :: replColGo lit repl fuel t

def replaceColonLit (lit repl : List Char) (cs : List Char) : List Char :=
  replColGo lit repl cs.length cs

/-- The scan leaves colon-free input unchanged. -/
theorem replColGo_no_colon (lit repl : List Char) (fuel : Nat) :
    ∀ cs : List Char, ':' ∉ cs → replColGo lit repl fuel cs = cs := by
  induction fuel with
  | zero => intro cs _; rfl
  | succ fuel ih =>
    intro cs hno
    match cs with
    | [] => rfl
    | c :: t =>
      simp only [List.mem_cons, not_or] at hno
      simp only [replColGo]
      rw [if_neg (fun h => hno.1 h.symm), ih t hno.2]

/-- The lenient pre-pass of `lenientJsonParse`: the four sequential
regex replacements of the source. -/
def sanitizeNonStd (s : String) : String :=
  let l1 := replaceColonLit "NaN".data ": \"NaN\"".data s.data
  let l2 := replaceColonLit "Infinity".data ": \"Infinity\"".data l1
  let l3 := replaceColonLit "-Infinity".data ": \"-Infinity\"".data l2
  let l4 := replaceColonLit "undefined".data ": null".data l3
  String.mk l4

/-- Translation of `lenientJsonParse` (both copies in the source are
identical): sanitize, then parse; `none` models the rethrown exception. -/
def lenientJsonParse (s : String) : Option JsonValue :=
  jsonParse (sanitizeNonStd s)

/-- Model of the native JSON parser's error message (the concrete text is
engine-specific, and the repository only stores and displays it). -/
def jsonNativeErrMsg : String := "Unexpected token in JSON"

/-- Translation of `JsonParser.canParse`. -/
def JsonParser.canParse (fileName : String) (content : Option String) : Bool :=
  if endsWithStr ".json" (toLowerStr fileName) then true
  else
    match content with
    | some c => startsWithStr "\x7b" (trimJS c) || startsWithStr "[" (trimJS c)
    | none => false

/-- The document built by `JsonParser.parse` on success. -/
def jsonDocOf (parsed : JsonValue) (content fileName : String) : DataDocument :=
  { id := generateId
    fileName := fileName
    format := "json"
    records := [{ index := 0, data := parsed, raw := content, errors := [],
                  size := utf8Len content }]
    meta := { lineCount := some (splitOnNl content.data).length }
    isMultiRecord := false
    totalRecords := 1
    totalSize := utf8Len content }

/-- The failure result of `JsonParser.parse`.  The source additionally
mines the engine-specific error text for a position to fill best-effort
line and column; the native message is not modelled, so they stay
absent. -/
def jsonFailRes : ParseResult :=
  { success := false, errors := [{ message := jsonNativeErrMsg, severity := .error }] }

/-- Translation of `JsonParser.parse`: native parse, then the lenient
pre-pass when standard parsing fails and `lenient` is set. -/
def JsonParser.parse (content fileName : String) (opts : ParseOptions) : ParseResult :=
  match jsonParse content with
  | some parsed =>
    { success := true, document := some (jsonDocOf parsed content fileName), errors := [] }
  | none =>
    if opts.lenient = some true then
      match lenientJsonParse content with
      | some parsed =>
        { success := true
          document := some (jsonDocOf parsed content fileName)
          errors := [{ message := "File contained non-standard JSON values (NaN, Infinity, etc.)"
                       severity := .warning }] }
      | none => jsonFailRes
    else jsonFailRes

/-- Translation of `JsonParser.serialize` (`JSON.stringify(data, null, 2)`
modelled compactly: the indentation argument only inserts whitespace). -/
def JsonParser.serialize (doc : DataDocument) : String :=
  match doc.records with
  | [] => ""
  | r :: _ => stringifyJson r.data

/-- Error-record payload of a JSONL line that fails to parse. -/
def errorDataObj (line : String) : JsonValue :=
  .obj [("_raw", .str line), ("_error", .bool true)]

/-- Error message for a failing JSONL line. -/
def lineErrMsg (n : Nat) : String :=
  "Line " ++ toString n ++ ": " ++ jsonNativeErrMsg

/-- The loop guard `records.length < maxRecords` (`Infinity` when the
option is absent). -/
def underLimit (n : Nat) : Option Nat → Bool
  | none => true
  | some m => decide (n < m)

/-- One JSONL line: native parse first, then the lenient pre-pass unless
lenient is disabled. -/
def jsonlTryParse (lenient : Bool) (s : String) : Option JsonValue :=
  match jsonParse s with
  | some v => some v
  | none => if lenient then lenientJsonParse s else none

/-- Translation of the line loop of `JsonlParser.parse`.  `i` is the
index into the lines of the trimmed content and `recCount` the number of
records built so far; returns records, errors and accumulated size. -/
def jsonlLoop (lenient : Bool) (maxR : Option Nat) :
    List (List Char) → Nat → Nat → List DataRecord × List ParseError × Nat
  | [], _, _ => ([], [], 0)
  | l :: rest, i, recCount =>
    if underLimit recCount maxR then
      let line := trimChars l
      if line.isEmpty then jsonlLoop lenient maxR rest (i + 1) recCount
      else
        let lineStr := String.mk line
        let lineSize := utf8Len lineStr
        match jsonlTryParse lenient lineStr with
        | some v =>
          let res := jsonlLoop lenient maxR rest (i + 1) (recCount + 1)
          ({ index := recCount, data := v, raw := lineStr, errors := [], size := lineSize }
              :: res.1,
            res.2.1, lineSize + res.2.2)
        | none =>
          let pe : ParseError :=
            { line := some (i + 1), message := lineErrMsg (i + 1), severity := .error }
          let res := jsonlLoop lenient maxR rest (i + 1) (recCount + 1)
          ({ index := recCount, data := errorDataObj lineStr, raw := lineStr,
             errors := [pe], size := lineSize } :: res.1,
            pe :: res.2.1, lineSize + res.2.2)
    else ([], [], 0)

/-- Translation of `JsonlParser.canParse`. -/
def JsonlParser.canParse (fileName : String) : Bool :=
  endsWithStr ".jsonl" (toLowerStr fileName) || endsWithStr ".ndjson" (toLowerStr fileName)

/-- Translation of `JsonlParser.parse`. -/
def JsonlParser.parse (content fileName : String) (opts : ParseOptions) : ParseResult :=
  let lines := splitOnNl (trimChars content.data)
  let lenient := opts.lenient != some false
  let res := jsonlLoop lenient opts.maxRecords lines 0 0
  let records := res.1
  let errors := res.2.1
  let totalSize := res.2.2
  if records.length = 0 then
    { success := false
      errors := errors ++
        [{ message := "No valid JSON objects found in file", severity := .error }] }
  else
    { success := decide ((errors.filter (fun e => e.severity = .error)).length = 0) ||
        decide (0 < records.length)
      document := some
        { id := generateId
          fileName := fileName
          format := "jsonl"
          records := records
          meta := { lineCount := some lines.length }
          isMultiRecord := true
          totalRecords := records.length
          totalSize := totalSize }
      errors := errors }

/-- Translation of `JsonlParser.serialize`. -/
def JsonlParser.serialize (doc : DataDocument) : String :=
  String.intercalate "\n" (doc.records.map (fun r => stringifyJson r.data))

/-- A PapaParse error record. -/
structure PapaErr where
  type : String
  code : String
  message : String
  row : Option Nat := none
deriving DecidableEq, Repr

/-- The unterminated-quote tokenizer error. -/
def missingQuotesErr (rowIdx : Nat) : PapaErr :=
  { type := "Quotes", code := "MissingQuotes", message := "Quoted field unterminated",
    row := some rowIdx }

/-- The malformed-trailing-quote tokenizer error. -/
def invalidQuotesErr (rowIdx : Nat) : PapaErr :=
  { type := "Quotes", code := "InvalidQuotes",
    message := "Trailing quote on quoted field is malformed", row := some rowIdx }

/-- Model of the PapaParse tokenizer, fuel-indexed with a flag for the
in-quotes state.  Unquoted: fields split on the delimiter, rows on `\n`
or `\r\n`, and a quote opens a quoted field only at field start.
Quoted: a doubled quote is an escaped quote; a closing quote must be
followed by the delimiter, a row break or the end of input, otherwise
the library records an `InvalidQuotes` error; an unterminated quote
records `MissingQuotes` and takes the remainder as the field.  The fuel
is at least the input length at every call, so the fuel-out case equals
the end-of-input case it duplicates. -/
def csvTokF (δ : Char) : Nat → Bool → List Char → List Char → List String →
    List (List String) → Nat → List PapaErr → List (List String) × List PapaErr
  | 0, quoted, _, field, row, rows, rowIdx, errs =>
    (rows ++ [row ++ [String.mk field]],
      if quoted then errs ++ [missingQuotesErr rowIdx] else errs)
  | fuel + 1, false, cs, field, row, rows, rowIdx, errs =>
    match cs with
    | [] => (rows ++ [row ++ [String.mk field]], errs)
    | c :: t =>
      if c = δ then csvTokF δ fuel false t [] (row ++ [String.mk field]) rows rowIdx errs
      else if c = '\n' then
        csvTokF δ fuel false t [] [] (rows ++ [row ++ [String.mk field]]) (rowIdx + 1) errs
      else if c = Char.ofNat 13 then
        if t.head? = some '\n' then
          csvTokF δ fuel false t.tail [] []
            (rows ++ [row ++ [String.mk field]]) (rowIdx + 1) errs
        else csvTokF δ fuel false t (field ++ [c]) row rows rowIdx errs
      else if c = '"' ∧ field = [] then csvTokF δ fuel true t [] row rows rowIdx errs
      else csvTokF δ fuel false t (field ++ [c]) row rows rowIdx errs
  | fuel + 1, true, cs, field, row, rows, rowIdx, errs =>
    match cs with
    | [] => (rows ++ [row ++ [String.mk field]], errs ++ [missingQuotesErr rowIdx])
    | c :: t =>
      if c = '"' then
        match t with
        | [] => (rows ++ [row ++ [String.mk field]], errs)
        | c2 :: t2 =>
          if c2 = '"' then csvTokF δ fuel true t2 (field ++ ['"']) row rows rowIdx errs
          else if c2 = δ then
            csvTokF δ fuel false t2 [] (row ++ [String.mk field]) rows rowIdx errs
          else if c2 = '\n' then
            csvTokF δ fuel false t2 [] []
              (rows ++ [row ++ [String.mk field]]) (rowIdx + 1) errs
          else if c2 = Char.ofNat 13 ∧ t2.head? = some '\n' then
            csvTokF δ fuel false t2.tail [] []
              (rows ++ [row ++ [String.mk field]]) (rowIdx + 1) errs
          else
            csvTokF δ fuel true (c2 :: t2) (field ++ ['"']) row rows rowIdx
              (errs ++ [invalidQuotesErr rowIdx])
      else csvTokF δ fuel true t (field ++ [c]) row rows rowIdx errs

/-- The tokenizer entry point, in the unquoted state. -/
def csvTokUnq (δ : Char) (cs : List Char) (field : List Char) (row : List String)
    (rows : List (List String)) (rowIdx : Nat) (errs : List PapaErr) :
    List (List String) × List PapaErr :=
  csvTokF δ cs.length false cs field row rows rowIdx errs

/-- Rows dropped by `skipEmptyLines: true`. -/
def skipEmptyRows (rows : List (List String)) : List (List String) :=
  rows.filter (fun r => !(r == [""]))

/-- Insert into an ordered set kept as a duplicate-free list. -/
def addUniq {α : Type} [DecidableEq α] (l : List α) (a : α) : List α :=
  if a ∈ l then l else l ++ [a]

/-- All JavaScript whitespace. -/
def allWs (cs : List Char) : Bool := cs.all isJsWsChar

/-- Exponent-and-trailing-space tail of PapaParse's FLOAT regex. -/
def floatExpPart (cs : List Char) : Bool :=
  match cs with
  | [] => true
  | c :: t =>
    if c = 'e' ∨ c = 'E' then
      let t2 := match t with
                | c2 :: u => if c2 = '+' ∨ c2 = '-' then u else c2 :: u
                | [] => []
      decide (t2.takeWhile isDigitChar ≠ []) && allWs (t2.dropWhile isDigitChar)
    else allWs (c :: t)

/-- Mantissa alternative of PapaParse's FLOAT regex
(`\d+\.?|\.\d+|\d+\.\d+`), returning the remainder on a match. -/
def floatMantissa (cs : List Char) : Option (List Char) :=
  let ds := cs.takeWhile isDigitChar
  let r := cs.dropWhile isDigitChar
  if ds = [] then
    match r with
    | '.' :: u =>
      let ds2 := u.takeWhile isDigitChar
      if ds2 = [] then none else some (u.dropWhile isDigitChar)
    | _ => none
  else
    match r with
    | '.' :: u => some (u.dropWhile isDigitChar)
    | _ => some r

/-- Model of PapaParse's FLOAT regex test. -/
def floatTest (s : String) : Bool :=
  let cs := s.data.dropWhile isJsWsChar
  let cs2 := match cs with
             | '-' :: u => u
             | _ => cs
  match floatMantissa cs2 with
  | none => false
  | some r => floatExpPart r

/-- Model of `parseFloat` on a FLOAT-matching field, kept as an exact
decimal like all numbers of this model. -/
def parseFloatModel (s : String) : JsonValue :=
  let cs := s.data.dropWhile isJsWsChar
  let sgn : Bool × List Char :=
    match cs with
    | '-' :: u => (true, u)
    | _ => (false, cs)
  let intDs := sgn.2.takeWhile isDigitChar
  let r0 := sgn.2.dropWhile isDigitChar
  let fr : List Char × List Char :=
    match r0 with
    | '.' :: u => (u.takeWhile isDigitChar, u.dropWhile isDigitChar)
    | _ => ([], r0)
  let ex : Int :=
    match fr.2 with
    | c :: t =>
      if c = 'e' ∨ c = 'E' then
        match t with
        | '-' :: u => -(digitsToNat (u.takeWhile isDigitChar) : Int)
        | '+' :: u => (digitsToNat (u.takeWhile isDigitChar) : Int)
        | _ => (digitsToNat (t.takeWhile isDigitChar) : Int)
      else 0
    | [] => 0
  .num sgn.1 (digitsToNat (intDs ++ fr.1)) (ex - fr.1.length)

/-- Model of PapaParse `dynamicTyping` on one field.  ISO-date strings
become `Date` objects in the library; a `Date` carries no more usable
structure here than its source text, so both branches keep the string. -/
def dynamicType (s : String) : JsonValue :=
  if s = "true" ∨ s = "TRUE" then .bool true
  else if s = "false" ∨ s = "FALSE" then .bool false
  else if floatTest s then parseFloatModel s
  else if s = "" then .null
  else .str s

/-- JavaScript object assignment on an insertion-ordered field list:
a fresh key appends, an existing key is overwritten in place. -/
def jsObjSet (l : List (String × JsonValue)) (k : String) (v : JsonValue) :
    List (String × JsonValue) :=
  if l.any (fun p => p.1 = k) then l.map (fun p => if p.1 = k then (k, v) else p)
  else l ++ [(k, v)]

/-- The `FieldMismatch`/`TooManyFields` error. -/
def tooManyErr (expected got rowIdx : Nat) : PapaErr :=
  { type := "FieldMismatch", code := "TooManyFields",
    message := "Too many fields: expected " ++ toString expected ++
      " fields but parsed " ++ toString got, row := some rowIdx }

/-- The `FieldMismatch`/`TooFewFields` error. -/
def tooFewErr (expected got rowIdx : Nat) : PapaErr :=
  { type := "FieldMismatch", code := "TooFewFields",
    message := "Too few fields: expected " ++ toString expected ++
      " fields but parsed " ++ toString got, row := some rowIdx }

/-- Header application to one data row: fields are typed and assigned to
the header names in order; surplus fields land in `__parsed_extra` with
a `TooManyFields` error, missing ones stay absent with `TooFewFields`. -/
def applyHeaderRow (header row : List String) (rowIdx : Nat) :
    List (String × JsonValue) × List PapaErr :=
  let obj := (List.zip header row).foldl
    (fun acc p => jsObjSet acc p.1 (dynamicType p.2)) []
  if header.length < row.length then
    (jsObjSet obj "__parsed_extra" (.arr ((row.drop header.length).map dynamicType)),
      [tooManyErr header.length row.length rowIdx])
  else if row.length < header.length then
    (obj, [tooFewErr header.length row.length rowIdx])
  else (obj, [])

/-- Header application to all data rows. -/
def applyHeader (header : List String) : List (List String) → Nat →
    List JsonValue × List PapaErr
  | [], _ => ([], [])
  | row :: rest, rowIdx =>
    let hr := applyHeaderRow header row rowIdx
    let tl := applyHeader header rest (rowIdx + 1)
    (JsonValue.obj hr.1 :: tl.1, hr.2 ++ tl.2)

/-- Scoring loop of PapaParse's delimiter guesser: field-count delta
between consecutive non-empty rows, and the field-count sum. -/
def delimScoreLoop : List (List String) → Option Nat → Nat → Nat → Nat × Nat
  | [], _, delta, sum => (delta, sum)
  | r :: rest, prev, delta, sum =>
    if r == [""] then delimScoreLoop rest prev delta sum
    else
      let fc := r.length
      match prev with
      | none => delimScoreLoop rest (some fc) delta (sum + fc)
      | some p => delimScoreLoop rest (some fc) (delta + (Int.natAbs (fc - p : Int))) (sum + fc)

/-- Candidate delimiters PapaParse tries, in order. -/
def candidateDelims : List Char := [',', '\t', '|', ';', Char.ofNat 30, Char.ofNat 31]

/-- Model of PapaParse's `guessDelimiter`: a ten-row preview is scored
per candidate; a candidate qualifies when its average field count
exceeds 1.99, and a later candidate replaces the best on a delta tie. -/
def guessDelimiter (cs : List Char) : Option Char :=
  (candidateDelims.foldl (fun best δ =>
    let rows := (csvTokUnq δ cs [] [] [] 0 []).1.take 10
    let score := delimScoreLoop rows none 0 0
    let qual : Bool := decide (score.2 * 100 > 199 * rows.length)
    match best with
    | none => if qual then some (δ, score.1) else best
    | some (_, bd) => if qual ∧ score.1 ≤ bd then some (δ, score.1) else best) none).map
    Prod.fst

/-- Value lookup on an object row, as `row[key]`. -/
def jsObjGet (v : JsonValue) (k : String) : Option JsonValue :=
  match v with
  | .obj fs => (fs.find? (fun p => p.1 = k)).map Prod.snd
  | _ => none

/-- Keys of an object row, as `Object.keys(row)`. -/
def objKeys : JsonValue → List String
  | .obj fs => fs.map Prod.fst
  | _ => []

/-- Shape matcher for the date patterns: `d` matches a digit, any other
character itself; `anchored` requires the input to end with the shape. -/
def matchShape : List Char → List Char → Bool → Bool
  | [], rest, anchored => if anchored then rest.isEmpty else true
  | _ :: _, [], _ => false
  | sc :: st, c :: t, anchored =>
    (if sc = 'd' then isDigitChar c else decide (c = sc)) && matchShape st t anchored

/-- Translation of `isDateString`: the four date regexes (the ISO-8601
pattern is a prefix match, the others are anchored). -/
def isDateString (s : String) : Bool :=
  matchShape "dddd-dd-dd".data s.data true ||
  matchShape "dddd-dd-ddTdd:dd".data s.data false ||
  matchShape "dd/dd/dddd".data s.data true ||
  matchShape "dd-dd-dddd".data s.data true

/-- Translation of the per-value branch of `inferColumnType`. -/
def typeOfCsvValue : Option JsonValue → String
  | none => "null"
  | some .null => "null"
  | some (.num _ _ _) => "number"
  | some (.bool _) => "boolean"
  | some (.str s) => if s = "" then "null" else if isDateString s then "date" else "string"
  | some (.arr _) => "array"
  | some (.obj _) => "object"

/-- Translation of `inferColumnType`: union the value types of the first
hundred rows, discard `null`, and collapse more than one type to
`mixed`. -/
def inferColumnType (data : List JsonValue) (key : String) : String :=
  let sample := data.take 100
  let types := sample.foldl (fun acc row => addUniq acc (typeOfCsvValue (jsObjGet row key))) []
  let types := types.filter (fun t => t ≠ "null")
  match types with
  | [] => "null"
  | [t] => t
  | _ :: _ :: _ => "mixed"

/-- Translation of `inferColumns`: one column per key of the first row. -/
def inferColumns (data : List JsonValue) : List ColumnDef :=
  match data with
  | [] => []
  | firstRow :: _ =>
    (objKeys firstRow).map (fun key =>
      { field := key, headerName := key, type := inferColumnType data key,
        sortable := true, filterable := true })

/-- String form of a field value in `Papa.unparse`. -/
def papaValueStr : JsonValue → String
  | .null => ""
  | .bool true => "true"
  | .bool false => "false"
  | .num neg m e => String.mk (printNumChars neg m e)
  | .str s => s
  | v => stringifyJson v

/-- Whether `Papa.unparse` must quote a field: it contains the quote
character, the delimiter or a line break, or begins or ends with a
space. -/
def needsQuotes (s : String) (δ : Char) : Bool :=
  s.data.any (fun c => c = '"' || c = δ || c = '\n' || c = Char.ofNat 13) ||
    (match s.data.head? with | some c => c = ' ' | none => false) ||
    (match s.data.getLast? with | some c => c = ' ' | none => false)

/-- Quote a field for `Papa.unparse`, doubling embedded quotes. -/
def quoteField (s : String) (δ : Char) : String :=
  if needsQuotes s δ then
    String.mk ('"' :: (s.data.flatMap (fun c => if c = '"' then ['"', '"'] else [c])) ++ ['"'])
  else s

/-- Model of `Papa.unparse([row], acting on header:false)` for the `raw`
text of one record (the source never passes a delimiter here, so the
comma is used). -/
def unparseRow (v : JsonValue) : String :=
  match v with
  | .obj fs => String.intercalate "," (fs.map (fun p => quoteField (papaValueStr p.2) ','))
  | .arr xs => String.intercalate "," (xs.map (fun x => quoteField (papaValueStr x) ','))
  | w => quoteField (papaValueStr w) ','

/-- Translation of `CsvParser.canParse`. -/
def CsvParser.canParse (fileName : String) : Bool :=
  endsWithStr ".csv" (toLowerStr fileName) || endsWithStr ".tsv" (toLowerStr fileName)

/-- The `Delimiter`/`UndetectableDelimiter` error. -/
def undetectableDelimErr : PapaErr :=
  { type := "Delimiter", code := "UndetectableDelimiter",
    message := "Unable to auto-detect delimiting character; defaulted to ','" }

/-- Delimiter resolution of `CsvParser.parse`: the option, else tab for
`.tsv`, else the guesser, else the comma with an error. -/
def csvResolve (content fileName : String) (opts : ParseOptions) : Char × List PapaErr :=
  let isTsv := endsWithStr ".tsv" (toLowerStr fileName)
  let configDelim : Option Char :=
    match opts.delimiter with
    | some d => some d
    | none => if isTsv then some '\t' else none
  match configDelim with
  | some d => (d, [])
  | none =>
    match guessDelimiter content.data with
    | some d => (d, [])
    | none => (',', [undetectableDelimErr])

/-- The tokenized rows of a CSV parse, after the empty-line filter. -/
def csvRows (content fileName : String) (opts : ParseOptions) : List (List String) :=
  skipEmptyRows (csvTokUnq (csvResolve content fileName opts).1 content.data [] [] [] 0 []).1

/-- Whether a CSV parse treats the first row as a header
(`options?.hasHeaders !== false`). -/
def csvHasHeader (opts : ParseOptions) : Bool := opts.hasHeaders != some false

/-- The typed data rows of a CSV parse with their field-mismatch errors. -/
def csvApplied (content fileName : String) (opts : ParseOptions) :
    List JsonValue × List PapaErr :=
  if csvHasHeader opts then
    match csvRows content fileName opts with
    | [] => ([], [])
    | header :: dataRows => applyHeader header dataRows 0
  else (csvRows content fileName opts |>.map (fun r => JsonValue.arr (r.map dynamicType)), [])

/-- All library errors of a CSV parse, in the order the code accumulates
them. -/
def csvPapaErrs (content fileName : String) (opts : ParseOptions) : List PapaErr :=
  (csvResolve content fileName opts).2 ++
    (csvTokUnq (csvResolve content fileName opts).1 content.data [] [] [] 0 []).2 ++
    (csvApplied content fileName opts).2

/-- Translation of the error-classification map of `CsvParser.parse`:
`FieldMismatch` becomes a warning, everything else an error. -/
def csvClassify (e : PapaErr) : ParseError :=
  { line := e.row.map (fun r => r + 1), message := e.message,
    severity := if e.type = "FieldMismatch" then Severity.warning else Severity.error }

/-- Translation of `CsvParser.parse`, with `Papa.parse` replaced by the
tokenizer, delimiter guesser, empty-line filter, header application and
dynamic-typing models above. -/
def CsvParser.parse (content fileName : String) (opts : ParseOptions) : ParseResult :=
  let isTsv := endsWithStr ".tsv" (toLowerStr fileName)
  let delim := (csvResolve content fileName opts).1
  let dataObjs := (csvApplied content fileName opts).1
  let errors := (csvPapaErrs content fileName opts).map csvClassify
  if dataObjs.length = 0 then
    { success := false
      errors := errors ++ [{ message := "No data found in file", severity := .error }] }
  else
    let columns := inferColumns dataObjs
    let records := dataObjs.enum.map (fun p =>
      { index := p.1, data := p.2, raw := unparseRow p.2, errors := [],
        size := (printVal p.2).length : DataRecord })
    { success := decide ((errors.filter (fun e => e.severity = .error)).length = 0)
      document := some
        { id := generateId
          fileName := fileName
          format := if isTsv then "tsv" else "csv"
          records := records
          meta := { lineCount := some (splitOnNl content.data).length
                    delimiter := some delim
                    hasHeaders := some (csvHasHeader opts)
                    columns := some columns }
          isMultiRecord := true
          totalRecords := records.length
          totalSize := utf8Len content }
      errors := errors }

/-- Translation of `CsvParser.serialize` (delimiter from the options,
else the document meta, else the comma). -/
def CsvParser.serialize (doc : DataDocument) (opts : ParseOptions) : String :=
  let delim := (opts.delimiter.orElse (fun _ => doc.meta.delimiter)).getD ','
  let header :=
    if doc.meta.hasHeaders != some false then
      match doc.records with
      | r :: _ => [String.intercalate (String.mk [delim])
          ((objKeys r.data).map (fun k => quoteField k delim))]
      | [] => []
    else []
  String.intercalate "\n" (header ++ doc.records.map (fun r =>
    match r.data with
    | .obj fs => String.intercalate (String.mk [delim])
        (fs.map (fun p => quoteField (papaValueStr p.2) delim))
    | v => quoteField (papaValueStr v) delim))

/-- Translation of `detectFormat`. -/
def detectFormat (fileName : String) : Option String :=
  let parts := (splitOnChar '.' (toLowerStr fileName).data).map String.mk
  let ext := parts.getLast? |>.getD ""
  if ext = "json" then some "json"
  else if ext = "jsonl" ∨ ext = "ndjson" then some "jsonl"
  else if ext = "csv" then some "csv"
  else if ext = "tsv" then some "tsv"
  else if ext = "xml" then some "xml"
  else if ext = "yaml" ∨ ext = "yml" then some "yaml"
  else none

/-- The parser registry, by the formats each parser declares. -/
def parserFormats : List (String × List String) :=
  [("json", ["json"]), ("jsonl", ["jsonl"]), ("csv", ["csv", "tsv"])]

/-- Translation of `getParser`: the first registered parser declaring
the format, named by its registry key. -/
def getParser (format : String) : Option String :=
  (parserFormats.find? (fun p => format ∈ p.2)).map Prod.fst

/-- Translation of the `canParse` dispatch over the registry. -/
def canParseBy (which : String) (fileName : String) (content : Option String) : Bool :=
  if which = "json" then JsonParser.canParse fileName content
  else if which = "jsonl" then JsonlParser.canParse fileName
  else if which = "csv" then CsvParser.canParse fileName
  else false

/-- Translation of `getParserForFile`: extension dispatch first, then
content inspection in registry order. -/
def getParserForFile (fileName : String) (content : Option String) : Option String :=
  match detectFormat fileName with
  | some fmt =>
    match getParser fmt with
    | some p => some p
    | none =>
      (parserFormats.find? (fun p => canParseBy p.1 fileName content)).map Prod.fst
  | none =>
    (parserFormats.find? (fun p => canParseBy p.1 fileName content)).map Prod.fst

/-- Translation of `parseFile`: dispatch to the matching parser, or the
unsupported-format error. -/
def parseFile (content fileName : String) (opts : ParseOptions) : ParseResult :=
  match getParserForFile fileName (some content) with
  | none =>
    { success := false
      errors := [{ message := "Unsupported file format: " ++ fileName, severity := .error }] }
  | some which =>
    if which = "json" then JsonParser.parse content fileName opts
    else if which = "jsonl" then JsonlParser.parse content fileName opts
    else CsvParser.parse content fileName opts

/-- Translation of the `SearchState` interface. -/
structure SearchState where
  globalTerm : String := ""
  inDocTerm : String := ""
  currentMatch : Nat := 0
  totalMatches : Nat := 0
  useRegex : Bool := false
  caseSensitive : Bool := false

/-- Translation of the `EditorState` interface.  The `Map<number,
unknown>` is an insertion-ordered, key-unique pair list, which every
operation below preserves. -/
structure EditorState where
  isEditing : Bool := false
  hasChanges : Bool := false
  modifiedRecords : List (Nat × JsonValue) := []

/-- Translation of the document store's state. -/
structure DocState where
  document : Option DataDocument := none
  currentIndex : Nat := 0
  isLoading : Bool := false
  loadError : Option String := none
  search : SearchState := {}
  editor : EditorState := {}

/-- Substring test, as JavaScript `String.prototype.includes`. -/
def isSubChars (sub : List Char) : List Char → Bool
  | [] => sub.isEmpty
  | c :: t => sub.isPrefixOf (c :: t) || isSubChars sub t

/-- `Map.has`. -/
def mapHas (m : List (Nat × JsonValue)) (k : Nat) : Bool :=
  m.any (fun p => p.1 = k)

/-- `Map.set`: overwrite in place, else append. -/
def mapSet (m : List (Nat × JsonValue)) (k : Nat) (v : JsonValue) :
    List (Nat × JsonValue) :=
  if mapHas m k then m.map (fun p => if p.1 = k then (k, v) else p)
  else m ++ [(k, v)]

/-- `Map.delete`. -/
def mapDelete (m : List (Nat × JsonValue)) (k : Nat) : List (Nat × JsonValue) :=
  m.filter (fun p => p.1 ≠ k)

/-- Translation of `initialSearchState`. -/
def initialSearchState : SearchState :=
  { globalTerm := "", inDocTerm := "", currentMatch := 0, totalMatches := 0,
    useRegex := false, caseSensitive := false }

/-- Translation of `initialEditorState` (a fresh empty map each time it
is spread into the state). -/
def initialEditorState : EditorState :=
  { isEditing := false, hasChanges := false, modifiedRecords := [] }

/-- First error message with the JS `||` fallback (an empty message also
falls back). -/
def firstErrMsg (r : ParseResult) (dflt : String) : String :=
  match r.errors.head? with
  | some e => if e.message = "" then dflt else e.message
  | none => dflt

/-- Translation of `loadFile` (the asynchronous file read is modelled by
passing the file's text; a read failure would only set `loadError`). -/
def loadFileModel (content fileName : String) (s : DocState) : DocState :=
  let s1 := { s with isLoading := true, loadError := none }
  let result := parseFile content fileName { lenient := some true }
  match result.document, result.success with
  | some doc, true =>
    { s1 with
      document := some doc
      currentIndex := 0
      isLoading := false
      search := initialSearchState
      editor := initialEditorState }
  | _, _ =>
    { s1 with
      loadError := some (firstErrMsg result "Failed to parse file")
      isLoading := false }

/-- Translation of `loadContent`. -/
def loadContentModel (content fileName : String) (s : DocState) : DocState :=
  let result := parseFile content fileName { lenient := some true }
  match result.document, result.success with
  | some doc, true =>
    { s with
      document := some doc
      currentIndex := 0
      search := initialSearchState
      editor := initialEditorState }
  | _, _ =>
    { s with loadError := some (firstErrMsg result "Failed to parse content") }

/-- Translation of `setCurrentIndex` (the clamp is on JS numbers, so the
argument is an integer). -/
def setCurrentIndexModel (index : Int) (s : DocState) : DocState :=
  match s.document with
  | none => s
  | some doc =>
    { s with currentIndex := (max 0 (min index ((doc.totalRecords : Int) - 1))).toNat }

/-- Translation of `navigateNext`. -/
def navigateNextModel (s : DocState) : DocState :=
  match s.document with
  | none => s
  | some doc =>
    if (s.currentIndex : Int) ≥ (doc.totalRecords : Int) - 1 then s
    else { s with currentIndex := s.currentIndex + 1 }

/-- Translation of `navigatePrev`. -/
def navigatePrevModel (s : DocState) : DocState :=
  if s.currentIndex = 0 then s
  else { s with currentIndex := s.currentIndex - 1 }

/-- Translation of `setGlobalSearch`, counting matching records. -/
def setGlobalSearchModel (term : String) (s : DocState) : DocState :=
  let matchCount :=
    if term ≠ "" then
      match s.document with
      | some doc =>
        (doc.records.filter (fun r =>
          isSubChars (toLowerStr term).data (toLowerStr (stringifyJson r.data)).data)).length
      | none => 0
    else 0
  { s with search := { s.search with
      globalTerm := term
      currentMatch := 0
      totalMatches := matchCount } }

/-- Translation of `setInDocSearch`. -/
def setInDocSearchModel (term : String) (s : DocState) : DocState :=
  { s with search := { s.search with inDocTerm := term, currentMatch := 0 } }

/-- Translation of `clearSearch`. -/
def clearSearchModel (s : DocState) : DocState :=
  { s with search := initialSearchState }

/-- Translation of `setEditMode`. -/
def setEditModeModel (enabled : Bool) (s : DocState) : DocState :=
  { s with editor := { s.editor with isEditing := enabled } }

/-- Translation of `updateRecord`. -/
def updateRecordModel (index : Nat) (data : JsonValue) (s : DocState) : DocState :=
  { s with editor := { s.editor with
      modifiedRecords := mapSet s.editor.modifiedRecords index data
      hasChanges := true } }

/-- Translation of `setRecordModification` (`data = null` clears the
entry). -/
def setRecordModificationModel (index : Nat) (data : Option JsonValue) (s : DocState) :
    DocState :=
  let m := match data with
    | none => mapDelete s.editor.modifiedRecords index
    | some d => mapSet s.editor.modifiedRecords index d
  { s with editor := { s.editor with
      modifiedRecords := m
      hasChanges := decide (0 < m.length) } }

/-- Translation of `discardChanges`. -/
def discardChangesModel (s : DocState) : DocState :=
  { s with editor := { s.editor with modifiedRecords := [], hasChanges := false } }

/-- Translation of `getCurrentRecord`. -/
def getCurrentRecordModel (s : DocState) : Option DataRecord :=
  match s.document with
  | none => none
  | some doc =>
    if s.currentIndex < doc.records.length then doc.records.get? s.currentIndex
    else none

/-- Translation of `getFilteredRecords`. -/
def getFilteredRecordsModel (s : DocState) : List DataRecord :=
  match s.document with
  | none => []
  | some doc =>
    if s.search.globalTerm = "" then doc.records
    else doc.records.filter (fun r =>
      isSubChars (toLowerStr s.search.globalTerm).data (toLowerStr (stringifyJson r.data)).data)

/-- Translation of `reset`. -/
def resetModel (_ : DocState) : DocState :=
  { document := none, currentIndex := 0, isLoading := false, loadError := none,
    search := initialSearchState, editor := initialEditorState }

/-- The code view's record-change effect (CodeView lines 60 to 79): it
re-points `hasChanges` at whether the current record alone has a
modification, writing only when the value differs. -/
def codeViewSyncRecordChange (s : DocState) : DocState :=
  let hasMods := mapHas s.editor.modifiedRecords s.currentIndex
  if s.editor.hasChanges ≠ hasMods then
    { s with editor := { s.editor with hasChanges := hasMods } }
  else s

/-- The code view's exit-edit-mode effect (CodeView lines 82 to 87): it
resets the editor text and clears `hasChanges` without touching the
modification map. -/
def codeViewExitEditSync (s : DocState) : DocState :=
  if ¬s.editor.isEditing ∧ s.editor.hasChanges then
    { s with editor := { s.editor with hasChanges := false } }
  else s

/-- Translation of the `SchemaNode` interface.  `firstOccurrence` is
omitted: within each map, nodes are created in increasing counter order,
so the source's sort by it is the identity on this insertion-ordered
representation. -/
inductive SchemaNode where
  | mk (key : String) (types : List String) (recordsWith : List Nat)
      (children : List (String × SchemaNode)) (path : String)

/-- The key of a schema node. -/
def SchemaNode.key : SchemaNode → String
  | ⟨k, _, _, _, _⟩ => k

/-- The observed types of a schema node. -/
def SchemaNode.types : SchemaNode → List String
  | ⟨_, t, _, _, _⟩ => t

/-- The record indices in which the node's key was observed
(`recordsWithKey`). -/
def SchemaNode.recordsWith : SchemaNode → List Nat
  | ⟨_, _, r, _, _⟩ => r

/-- The children map of a schema node. -/
def SchemaNode.children : SchemaNode → List (String × SchemaNode)
  | ⟨_, _, _, c, _⟩ => c

/-- The path of a schema node. -/
def SchemaNode.path : SchemaNode → String
  | ⟨_, _, _, _, p⟩ => p

/-- A freshly created schema node. -/
def freshNode (k path : String) : SchemaNode := ⟨k, [], [], [], path⟩

/-- `getOrCreateNode`, map-update half: append a fresh node when the
key is absent. -/
def ensureNode (m : List (String × SchemaNode)) (k path : String) :
    List (String × SchemaNode) :=
  if m.any (fun p => p.1 = k) then m else m ++ [(k, freshNode k path)]

/-- In-place update of the node stored under a key. -/
def updateNode (m : List (String × SchemaNode)) (k : String)
    (f : SchemaNode → SchemaNode) : List (String × SchemaNode) :=
  m.map (fun p => if p.1 = k then (p.1, f p.2) else p)

/-- Translation of `getType`. -/
def getTypeStr : JsonValue → String
  | .null => "null"
  | .arr _ => "array"
  | .bool _ => "boolean"
  | .num _ _ _ => "number"
  | .str _ => "string"
  | .obj _ => "object"

/-- Record a type observation and a record index on a node. -/
def SchemaNode.addMark (t : String) (ri : Nat) : SchemaNode → SchemaNode
  | ⟨k, types, rw, ch, p⟩ => ⟨k, addUniq types t, addUniq rw ri, ch, p⟩

/-- Replace the children map of a node. -/
def SchemaNode.setChildren (cs : List (String × SchemaNode)) : SchemaNode → SchemaNode
  | ⟨k, t, r, _, p⟩ => ⟨k, t, r, cs, p⟩

mutual

/-- Structural size of a JSON value, used as recursion fuel for the
schema walk. -/
def jsonSize : JsonValue → Nat
  | .null => 1
  | .bool _ => 1
  | .num _ _ _ => 1
  | .str _ => 1
  | .arr items => 1 + jsonSizeItems items
  | .obj fs => 1 + jsonSizeFields fs
termination_by structural v => v

def jsonSizeFields : List (String × JsonValue) → Nat
  | [] => 1
  | (_, v) :: rest => 1 + jsonSize v + jsonSizeFields rest
termination_by structural l => l

def jsonSizeItems : List JsonValue → Nat
  | [] => 1
  | v :: rest => 1 + jsonSize v + jsonSizeItems rest
termination_by structural l => l

end

mutual

/-- Translation of `analyzeObject`: walk the fields of one object,
marking each key's node and recursing (to depth 3) into object values
and the first three items of array values.  The fuel argument bounds
the recursion structurally; it is at least the size of the field list
at every call, so the fuel-out case equals the end-of-list case. -/
def analyzeFields : Nat → List (String × JsonValue) → List (String × SchemaNode) → Nat → Nat →
    String → List (String × SchemaNode)
  | 0, _, m, _, _, _ => m
  | _ + 1, [], m, _, _, _ => m
  | fuel + 1, (k, v) :: rest, m, ri, depth, parentPath =>
    let path := if parentPath = "" then k else parentPath ++ "." ++ k
    let m1 := ensureNode m k path
    let m2 := updateNode m1 k (SchemaNode.addMark (getTypeStr v) ri)
    let m3 :=
      if depth < 3 then
        match v with
        | .obj fs =>
          updateNode m2 k (fun n =>
            n.setChildren (analyzeFields fuel fs n.children ri (depth + 1) path))
        | .arr items =>
          updateNode m2 k (fun n =>
            n.setChildren (analyzeItems fuel 3 items n.children ri (depth + 1) path))
        | _ => m2
      else m2
    analyzeFields fuel rest m3 ri depth parentPath
termination_by structural fuel _ _ _ _ _ => fuel

/-- The array-item loop of `analyzeObject` (and of `analyzeValue` at the
root): at most `limit` items are visited, modelling `slice(0, limit)`,
and only plain-object items are analysed. -/
def analyzeItems : Nat → Nat → List JsonValue → List (String × SchemaNode) → Nat → Nat →
    String → List (String × SchemaNode)
  | 0, _, _, m, _, _, _ => m
  | _ + 1, _, [], m, _, _, _ => m
  | _ + 1, 0, _ :: _, m, _, _, _ => m
  | fuel + 1, limit + 1, item :: rest, m, ri, depth, path =>
    let m1 :=
      match item with
      | .obj fs => analyzeFields fuel fs m ri depth path
      | _ => m
    analyzeItems fuel limit rest m1 ri depth path
termination_by structural fuel _ _ _ _ _ _ => fuel

end

/-- Translation of `analyzeValue`: an object root is analysed directly,
an array root through its first ten object items.  The starting fuel
`jsonSize d` exceeds every measure the recursion descends along. -/
def analyzeValueS (d : JsonValue) (m : List (String × SchemaNode)) (ri : Nat) :
    List (String × SchemaNode) :=
  match d with
  | .obj fs => analyzeFields (jsonSize d) fs m ri 0 ""
  | .arr items => analyzeItems (jsonSize d) 10 items m ri 0 ""
  | _ => m

/-- Translation of the schema `useMemo`: analyse every record at its
position.  The source's final `sortNodes` (by `firstOccurrence`) is the
identity on this insertion-ordered representation. -/
def buildSchema (records : List DataRecord) : List (String × SchemaNode) :=
  records.enum.foldl (fun m p => analyzeValueS p.2.data m p.1) []

/-- Reported presence count of the schema node reached by a key path. -/
def schemaCountAtPath : List (String × SchemaNode) → List String → Option Nat
  | _, [] => none
  | m, [k] => ((m.find? (fun p => p.1 = k)).map (fun p => p.2.recordsWith.length))
  | m, k :: k2 :: ks =>
    match m.find? (fun p => p.1 = k) with
    | none => none
    | some p => schemaCountAtPath p.2.children (k2 :: ks)

/-- The `renderNode` consistency check: a node is consistent when its
presence count equals the document's record total. -/
def nodeConsistent (n : SchemaNode) (totalRecords : Nat) : Bool :=
  n.recordsWith.length == totalRecords

mutual

/-- Containment of a field path in a value, following the spec's
reading of "records containing that field": object steps follow the
named field, arrays are traversed through every element, with no depth
or sampling bound. -/
def containsPath : JsonValue → List String → Bool
  | _, [] => true
  | .obj fs, k :: ks => containsFieldsPath fs k ks
  | .arr items, k :: ks => containsItemsPath items (k :: ks)
  | _, _ :: _ => false
termination_by structural v _ => v

/-- Path containment through an object's field list. -/
def containsFieldsPath : List (String × JsonValue) → String → List String → Bool
  | [], _, _ => false
  | (k', v') :: rest, k, ks =>
    (decide (k' = k) && containsPath v' ks) || containsFieldsPath rest k ks
termination_by structural fs _ _ => fs

/-- Path containment through an array's items. -/
def containsItemsPath : List JsonValue → List String → Bool
  | [], _ => false
  | it :: rest, ks => containsPath it ks || containsItemsPath rest ks
termination_by structural items _ => items

end

/-- Top-level key containment in an object-rooted record value. -/
def containsTopKey (v : JsonValue) (k : String) : Bool :=
  match v with
  | .obj fs => fs.any (fun p => p.1 = k)
  | _ => false

/-- The spec's modification-map invariant: any entry implies "has
unsaved changes". -/
def editInvariant (s : DocState) : Prop :=
  s.editor.modifiedRecords ≠ [] → s.editor.hasChanges = true

/-- The trimmed non-blank lines of a character buffer, in order: what a
reader of the file would call its non-blank lines. -/
def nbLines (cs : List Char) : List (List Char) :=
  ((splitOnNl cs).map trimChars).filter (fun l => !l.isEmpty)

theorem splitOnNl_ne_nil (cs : List Char) : splitOnNl cs ≠ [] := by
  cases cs with
  | nil => simp [splitOnNl]
  | cons c t =>
    simp only [splitOnNl]
    split
    · simp
    · split <;> simp

theorem trimChars_cons_ws {c : Char} (hw : isJsWsChar c = true) (l : List Char) :
    trimChars (c :: l) = trimChars l := by
  simp only [trimChars, List.dropWhile_cons, hw, if_true]

theorem nbLines_dropWhile (cs : List Char) :
    nbLines (cs.dropWhile isJsWsChar) = nbLines cs := by
  induction cs with
  | nil => rfl
  | cons c t ih =>
    by_cases hw : isJsWsChar c = true
    · rw [List.dropWhile_cons, if_pos hw, ih]
      by_cases hn : c = '\n'
      · subst hn
        simp [nbLines, splitOnNl, trimChars]
      · obtain ⟨h0, r0, hsp⟩ : ∃ h0 r0, splitOnNl t = h0 :: r0 := by
          cases hh : splitOnNl t with
          | nil => exact absurd hh (splitOnNl_ne_nil t)
          | cons a b => exact ⟨a, b, rfl⟩
        simp only [nbLines, splitOnNl, hsp]
        rw [if_neg hn]
        simp only [List.map_cons, trimChars_cons_ws hw]
    · rw [List.dropWhile_cons, if_neg (by simpa using hw)]

theorem splitOnNl_append_nl (ds : List Char) :
    splitOnNl (ds ++ ['\n']) = splitOnNl ds ++ [[]] := by
  induction ds with
  | nil => rfl
  | cons c t ih =>
    by_cases hc : c = '\n'
    · subst hc
      simp only [List.cons_append, splitOnNl, List.append_eq, ih]
      simp
    · obtain ⟨h0, r0, hsp⟩ : ∃ h0 r0, splitOnNl t = h0 :: r0 := by
        cases hh : splitOnNl t with
        | nil => exact absurd hh (splitOnNl_ne_nil t)
        | cons a b => exact ⟨a, b, rfl⟩
      have hstep : splitOnNl (t ++ ['\n']) = h0 :: (r0 ++ [[]]) := by
        rw [ih, hsp]; rfl
      simp only [List.cons_append, splitOnNl, List.append_eq, hstep, hsp]
      rw [if_neg hc, if_neg hc]
      simp

/-- Append one character to the last chunk of a split, as the scan of
`splitOnNl` does when the buffer grows by a non-newline character. -/
def lastApp (c : Char) : List (List Char) → List (List Char)
  | [] => [[c]]
  | [a] => [a ++ [c]]
  | a :: as => a :: lastApp c as

theorem splitOnNl_append_ch {c : Char} (hc : ¬c = '\n') (ds : List Char) :
    splitOnNl (ds ++ [c]) = lastApp c (splitOnNl ds) := by
  induction ds with
  | nil =>
    simp only [List.nil_append, splitOnNl]
    rw [if_neg hc]
    rfl
  | cons d t ih =>
    obtain ⟨h0, r0, hsp⟩ : ∃ h0 r0, splitOnNl t = h0 :: r0 := by
      cases hh : splitOnNl t with
      | nil => exact absurd hh (splitOnNl_ne_nil t)
      | cons a b => exact ⟨a, b, rfl⟩
    by_cases hd : d = '\n'
    · subst hd
      simp only [List.cons_append, splitOnNl, List.append_eq, ih, hsp]
      simp [lastApp]
    · cases r0 with
      | nil =>
        simp only [List.cons_append, splitOnNl, List.append_eq, ih, hsp]
        rw [if_neg hd, if_neg hd]
        simp [lastApp]
      | cons x xs =>
        simp only [List.cons_append, splitOnNl, List.append_eq, ih, hsp]
        rw [if_neg hd, if_neg hd]
        simp [lastApp]

theorem trimChars_append_ws {c : Char} (hw : isJsWsChar c = true) (a : List Char) :
    trimChars (a ++ [c]) = trimChars a := by
  by_cases he : (a.dropWhile isJsWsChar).isEmpty = true
  · have ha : a.dropWhile isJsWsChar = [] := by
      cases hh : a.dropWhile isJsWsChar with
      | nil => rfl
      | cons x y => rw [hh] at he; simp at he
    have hac : (a ++ [c]).dropWhile isJsWsChar = [] := by
      rw [List.dropWhile_append, ha]
      simp [List.dropWhile_cons, hw]
    simp [trimChars, ha, hac]
  · have hd : (a ++ [c]).dropWhile isJsWsChar = a.dropWhile isJsWsChar ++ [c] := by
      rw [List.dropWhile_append, if_neg (by simpa using he)]
    simp only [trimChars, hd, List.reverse_append, List.reverse_cons, List.reverse_nil,
      List.nil_append, List.singleton_append, List.dropWhile_cons, hw, if_true]

theorem mapTrim_lastApp {c : Char} (hw : isJsWsChar c = true) :
    ∀ ls : List (List Char), ls ≠ [] → (lastApp c ls).map trimChars = ls.map trimChars
  | [], h => absurd rfl h
  | [a], _ => by simp [lastApp, trimChars_append_ws hw]
  | a :: b :: as, _ => by
    simp only [lastApp, List.map_cons]
    rw [show (lastApp c (b :: as)).map trimChars = (b :: as).map trimChars from
      mapTrim_lastApp hw (b :: as) (by simp)]
    simp

theorem nbLines_concat_ws {c : Char} (hw : isJsWsChar c = true) (ds : List Char) :
    nbLines (ds ++ [c]) = nbLines ds := by
  by_cases hc : c = '\n'
  · subst hc
    simp [nbLines, splitOnNl_append_nl, trimChars]
  · simp only [nbLines, splitOnNl_append_ch hc,
      mapTrim_lastApp hw (splitOnNl ds) (splitOnNl_ne_nil ds)]

theorem nbLines_trimEnd (cs : List Char) :
    nbLines ((cs.reverse.dropWhile isJsWsChar).reverse) = nbLines cs := by
  cases hr : cs.reverse with
  | nil =>
    have : cs = [] := by simpa using congrArg List.reverse hr
    simp [this]
  | cons c t =>
    have hcs : cs = t.reverse ++ [c] := by
      have := congrArg List.reverse hr
      simpa using this
    by_cases hw : isJsWsChar c = true
    · rw [List.dropWhile_cons, if_pos hw, hcs, nbLines_concat_ws hw]
      have := nbLines_trimEnd t.reverse
      simpa using this
    · rw [List.dropWhile_cons, if_neg (by simpa using hw), ← hr]
      simp
termination_by cs.length
decreasing_by
  rw [hcs]
  simp

theorem nbLines_trim (cs : List Char) : nbLines (trimChars cs) = nbLines cs := by
  have h1 := nbLines_trimEnd (cs.dropWhile isJsWsChar)
  have h2 := nbLines_dropWhile cs
  simp only [trimChars]
  rw [h1, h2]

theorem nbLines_eq_map_filter (cs : List Char) :
    nbLines cs =
      ((splitOnNl cs).filter (fun l => !(trimChars l).isEmpty)).map trimChars := by
  simp only [nbLines, List.filter_map]
  rfl

/-- Induction workhorse for the JSONL line loop with no record limit:
record count, raw texts, indices, per-record error emptiness, and the
provenance of every accumulated error. -/
theorem jsonlLoop_spec (lenient : Bool) (ls : List (List Char)) : ∀ i rc : Nat,
    ((jsonlLoop lenient none ls i rc).1.length =
        (ls.filter (fun l => !(trimChars l).isEmpty)).length) ∧
    ((jsonlLoop lenient none ls i rc).1.map (fun r => r.raw) =
        (ls.filter (fun l => !(trimChars l).isEmpty)).map
          (fun l => String.mk (trimChars l))) ∧
    ((jsonlLoop lenient none ls i rc).1.map (fun r => r.index) =
        List.range' rc (ls.filter (fun l => !(trimChars l).isEmpty)).length) ∧
    ((jsonlLoop lenient none ls i rc).1.map (fun r => r.errors.isEmpty) =
        (ls.filter (fun l => !(trimChars l).isEmpty)).map
          (fun l => (jsonlTryParse lenient (String.mk (trimChars l))).isSome)) ∧
    (∀ e ∈ (jsonlLoop lenient none ls i rc).2.1, ∃ k, k < ls.length ∧
        e.line = some (i + k + 1) ∧ e.message = lineErrMsg (i + k + 1) ∧
        (trimChars (ls.getD k [])).isEmpty = false ∧
        jsonlTryParse lenient (String.mk (trimChars (ls.getD k []))) = none ∧
        e.severity = .error) := by
  induction ls with
  | nil => intro i rc; refine ⟨rfl, rfl, rfl, rfl, ?_⟩; intro e he; simp [jsonlLoop] at he
  | cons l rest ih =>
    intro i rc
    obtain ⟨ih1, ih2, ih3, ih4, ih5⟩ := ih (i + 1) rc
    by_cases hb : (trimChars l).isEmpty = true
    · have hloop : jsonlLoop lenient none (l :: rest) i rc =
          jsonlLoop lenient none rest (i + 1) rc := by
        simp [jsonlLoop, underLimit, hb]
      have hfil : (l :: rest).filter (fun l => !(trimChars l).isEmpty) =
          rest.filter (fun l => !(trimChars l).isEmpty) := by
        simp [List.filter_cons, hb]
      rw [hloop, hfil]
      refine ⟨ih1, ih2, ih3, ih4, ?_⟩
      intro e he
      obtain ⟨k, hk, h1, h2, h3, h4, h5⟩ := ih5 e he
      refine ⟨k + 1, by simpa using hk, ?_, ?_, ?_, ?_, h5⟩
      · rw [h1]; congr 1; omega
      · rw [h2]; congr 1; omega
      · simpa using h3
      · simpa using h4
    · have hbf : (trimChars l).isEmpty = false := by
        cases hh : (trimChars l).isEmpty with
        | false => rfl
        | true => exact absurd hh hb
      have hfil : (l :: rest).filter (fun l => !(trimChars l).isEmpty) =
          l :: rest.filter (fun l => !(trimChars l).isEmpty) := by
        simp [List.filter_cons, hbf]
      obtain ⟨jh1, jh2, jh3, jh4, jh5⟩ := ih (i + 1) (rc + 1)
      cases hp : jsonlTryParse lenient (String.mk (trimChars l)) with
      | some v =>
        have hloop : jsonlLoop lenient none (l :: rest) i rc =
            ({ index := rc, data := v, raw := String.mk (trimChars l), errors := [],
               size := utf8Len (String.mk (trimChars l)) }
                :: (jsonlLoop lenient none rest (i + 1) (rc + 1)).1,
              (jsonlLoop lenient none rest (i + 1) (rc + 1)).2.1,
              utf8Len (String.mk (trimChars l)) +
                (jsonlLoop lenient none rest (i + 1) (rc + 1)).2.2) := by
          simp [jsonlLoop, underLimit, hb, hp]
        rw [hloop, hfil]
        refine ⟨?_, ?_, ?_, ?_, ?_⟩
        · simpa using jh1
        · simpa using jh2
        · simp only [List.map_cons, List.length_cons, List.range'_succ]
          exact congrArg _ jh3
        · simp only [List.map_cons]
          rw [jh4, hp]
          rfl
        · intro e he
          obtain ⟨k, hk, h1, h2, h3, h4, h5⟩ := jh5 e he
          refine ⟨k + 1, by simpa using hk, ?_, ?_, ?_, ?_, h5⟩
          · rw [h1]; congr 1; omega
          · rw [h2]; congr 1; omega
          · simpa using h3
          · simpa using h4
      | none =>
        have hloop : jsonlLoop lenient none (l :: rest) i rc =
            ({ index := rc, data := errorDataObj (String.mk (trimChars l)),
               raw := String.mk (trimChars l),
               errors := [{ line := some (i + 1), message := lineErrMsg (i + 1),
                            severity := .error }],
               size := utf8Len (String.mk (trimChars l)) }
                :: (jsonlLoop lenient none rest (i + 1) (rc + 1)).1,
              { line := some (i + 1), message := lineErrMsg (i + 1), severity := .error }
                :: (jsonlLoop lenient none rest (i + 1) (rc + 1)).2.1,
              utf8Len (String.mk (trimChars l)) +
                (jsonlLoop lenient none rest (i + 1) (rc + 1)).2.2) := by
          simp [jsonlLoop, underLimit, hb, hp]
        rw [hloop, hfil]
        refine ⟨?_, ?_, ?_, ?_, ?_⟩
        · simpa using jh1
        · simpa using jh2
        · simp only [List.map_cons, List.length_cons, List.range'_succ]
          exact congrArg _ jh3
        · simp only [List.map_cons]
          rw [jh4, hp]
          rfl
        · intro e he
          rcases List.mem_cons.mp he with he0 | he'
          · refine ⟨0, by simp, ?_, ?_, ?_, ?_, ?_⟩ <;> subst he0
            · rfl
            · rfl
            · simpa using hbf
            · simpa using hp
            · rfl
          · obtain ⟨k, hk, h1, h2, h3, h4, h5⟩ := jh5 e he'
            refine ⟨k + 1, by simpa using hk, ?_, ?_, ?_, ?_, h5⟩
            · rw [h1]; congr 1; omega
            · rw [h2]; congr 1; omega
            · simpa using h3
            · simpa using h4

/-- An all-blank line list yields no records, no errors and no size. -/
theorem jsonlLoop_blank (lenient : Bool) (maxR : Option Nat) :
    ∀ ls : List (List Char), (∀ l ∈ ls, (trimChars l).isEmpty = true) →
      ∀ i rc : Nat, jsonlLoop lenient maxR ls i rc = ([], [], 0)
  | [], _, _, _ => rfl
  | l :: rest, h, i, rc => by
    have hl : (trimChars l).isEmpty = true := h l (by simp)
    cases hu : underLimit rc maxR with
    | false => simp [jsonlLoop, hu]
    | true =>
      simp only [jsonlLoop, hu, if_true, hl, if_pos rfl]
      exact jsonlLoop_blank lenient maxR rest (fun x hx => h x (by simp [hx])) (i + 1) rc

/-- The record-index list stored on the top-level schema node of a key
(empty when the node does not exist). -/
def recordsWithOf (m : List (String × SchemaNode)) (k : String) : List Nat :=
  ((m.find? (fun p => p.1 = k)).map (fun p => p.2.recordsWith)).getD []

theorem addMark_recordsWith (t : String) (ri : Nat) (n : SchemaNode) :
    (SchemaNode.addMark t ri n).recordsWith = addUniq n.recordsWith ri := by
  cases n; rfl

theorem setChildren_recordsWith (cs : List (String × SchemaNode)) (n : SchemaNode) :
    (SchemaNode.setChildren cs n).recordsWith = n.recordsWith := by
  cases n; rfl

theorem mem_addUniq_self {α : Type} [DecidableEq α] (l : List α) (a : α) :
    a ∈ addUniq l a := by
  unfold addUniq
  split
  · assumption
  · simp

theorem addUniq_idem {α : Type} [DecidableEq α] (l : List α) (a : α) :
    addUniq (addUniq l a) a = addUniq l a := by
  rw [show addUniq (addUniq l a) a = if a ∈ addUniq l a then addUniq l a
      else addUniq l a ++ [a] from rfl]
  rw [if_pos (mem_addUniq_self l a)]

theorem ensureNode_any (m : List (String × SchemaNode)) (k path : String) :
    (ensureNode m k path).any (fun p => p.1 = k) = true := by
  unfold ensureNode
  split
  · assumption
  · simp

theorem recordsWithOf_ensureNode (m : List (String × SchemaNode)) (k' path k : String) :
    recordsWithOf (ensureNode m k' path) k = recordsWithOf m k := by
  unfold ensureNode
  split
  · rfl
  · unfold recordsWithOf
    rw [List.find?_append]
    cases hf : m.find? (fun p => p.1 = k) with
    | some q => simp
    | none =>
      by_cases hk : k' = k
      · subst hk
        simp [List.find?, freshNode, SchemaNode.recordsWith]
      · simp [List.find?, hk]

theorem recordsWithOf_updateNode_pres (f : SchemaNode → SchemaNode)
    (hf : ∀ n, (f n).recordsWith = n.recordsWith) (k' k : String) :
    ∀ m : List (String × SchemaNode),
      recordsWithOf (updateNode m k' f) k = recordsWithOf m k := by
  intro m
  induction m with
  | nil => rfl
  | cons p rest ih =>
    simp only [updateNode, List.map_cons] at ih ⊢
    by_cases hp : p.1 = k'
    · rw [if_pos hp]
      by_cases hk : p.1 = k
      · unfold recordsWithOf
        rw [List.find?_cons_of_pos _ (by simpa using hk),
          List.find?_cons_of_pos _ (by simpa using hk)]
        simp [hf]
      · unfold recordsWithOf
        rw [List.find?_cons_of_neg _ (by simpa using hk),
          List.find?_cons_of_neg _ (by simpa using hk)]
        exact ih
    · rw [if_neg hp]
      by_cases hk : p.1 = k
      · unfold recordsWithOf
        rw [List.find?_cons_of_pos _ (by simpa using hk),
          List.find?_cons_of_pos _ (by simpa using hk)]
      · unfold recordsWithOf
        rw [List.find?_cons_of_neg _ (by simpa using hk),
          List.find?_cons_of_neg _ (by simpa using hk)]
        exact ih

theorem recordsWithOf_updateNode_ne (k' k : String) (hne : ¬k' = k)
    (f : SchemaNode → SchemaNode) :
    ∀ m : List (String × SchemaNode),
      recordsWithOf (updateNode m k' f) k = recordsWithOf m k := by
  intro m
  induction m with
  | nil => rfl
  | cons p rest ih =>
    simp only [updateNode, List.map_cons] at ih ⊢
    by_cases hp : p.1 = k'
    · rw [if_pos hp]
      have hk : ¬p.1 = k := fun h => hne (hp ▸ h)
      unfold recordsWithOf
      rw [List.find?_cons_of_neg _ (by simpa using hk),
        List.find?_cons_of_neg _ (by simpa using hk)]
      exact ih
    · rw [if_neg hp]
      by_cases hk : p.1 = k
      · unfold recordsWithOf
        rw [List.find?_cons_of_pos _ (by simpa using hk),
          List.find?_cons_of_pos _ (by simpa using hk)]
      · unfold recordsWithOf
        rw [List.find?_cons_of_neg _ (by simpa using hk),
          List.find?_cons_of_neg _ (by simpa using hk)]
        exact ih

theorem recordsWithOf_updateNode_addMark (k : String) (t : String) (ri : Nat) :
    ∀ m : List (String × SchemaNode), m.any (fun p => p.1 = k) = true →
      recordsWithOf (updateNode m k (SchemaNode.addMark t ri)) k =
        addUniq (recordsWithOf m k) ri := by
  intro m
  induction m with
  | nil => intro h; simp at h
  | cons p rest ih =>
    intro hany
    simp only [updateNode, List.map_cons] at ih ⊢
    by_cases hp : p.1 = k
    · rw [if_pos hp]
      unfold recordsWithOf
      rw [List.find?_cons_of_pos _ (by simpa using hp),
        List.find?_cons_of_pos _ (by simpa using hp)]
      simp [addMark_recordsWith]
    · rw [if_neg hp]
      have hrest : rest.any (fun p => p.1 = k) = true := by
        simpa [List.any_cons, hp] using hany
      unfold recordsWithOf
      rw [List.find?_cons_of_neg _ (by simpa using hp),
        List.find?_cons_of_neg _ (by simpa using hp)]
      exact ih hrest

/-- One object's field walk marks the top-level node of a key exactly
when the object has that key, and touches no other node's record
list. -/
theorem analyzeFields_recordsWithOf (k : String) (ri : Nat) :
    ∀ (fs : List (String × JsonValue)) (fuel : Nat) (m : List (String × SchemaNode))
      (depth : Nat) (pp : String), jsonSizeFields fs ≤ fuel →
      recordsWithOf (analyzeFields fuel fs m ri depth pp) k =
        if fs.any (fun p => p.1 = k) then addUniq (recordsWithOf m k) ri
        else recordsWithOf m k := by
  intro fs
  induction fs with
  | nil =>
    intro fuel m depth pp _
    cases fuel <;> simp [analyzeFields]
  | cons kv rest ih =>
    intro fuel m depth pp hfuel
    obtain ⟨k', v⟩ := kv
    cases fuel with
    | zero =>
      exfalso
      simp [jsonSizeFields] at hfuel
    | succ f =>
      have hsz : jsonSizeFields ((k', v) :: rest) = 1 + jsonSize v + jsonSizeFields rest := by
        simp [jsonSizeFields]
      have hrest : jsonSizeFields rest ≤ f := by omega
      simp only [analyzeFields]
      rw [ih f _ depth pp hrest]
      have hm2 : ∀ path,
          recordsWithOf (updateNode (ensureNode m k' path) k'
            (SchemaNode.addMark (getTypeStr v) ri)) k =
          if k' = k then addUniq (recordsWithOf m k) ri else recordsWithOf m k := by
        intro path
        by_cases hk : k' = k
        · subst hk
          rw [if_pos rfl, recordsWithOf_updateNode_addMark k' (getTypeStr v) ri _
            (ensureNode_any m k' path), recordsWithOf_ensureNode]
        · rw [if_neg hk, recordsWithOf_updateNode_ne k' k hk, recordsWithOf_ensureNode]
      have hm3 : ∀ path,
          recordsWithOf (if depth < 3 then
            match v with
            | .obj fs2 =>
              updateNode (updateNode (ensureNode m k' path) k'
                  (SchemaNode.addMark (getTypeStr v) ri)) k' (fun n =>
                n.setChildren (analyzeFields f fs2 n.children ri (depth + 1) path))
            | .arr items =>
              updateNode (updateNode (ensureNode m k' path) k'
                  (SchemaNode.addMark (getTypeStr v) ri)) k' (fun n =>
                n.setChildren (analyzeItems f 3 items n.children ri (depth + 1) path))
            | _ => updateNode (ensureNode m k' path) k'
                (SchemaNode.addMark (getTypeStr v) ri)
          else updateNode (ensureNode m k' path) k'
            (SchemaNode.addMark (getTypeStr v) ri)) k =
          if k' = k then addUniq (recordsWithOf m k) ri else recordsWithOf m k := by
        intro path
        by_cases hd : depth < 3
        · rw [if_pos hd]
          cases v
          all_goals first
            | exact hm2 path
            | (rw [recordsWithOf_updateNode_pres _
                (fun n => setChildren_recordsWith _ n) k' k]
               exact hm2 path)
        · rw [if_neg hd]
          exact hm2 path
      rw [hm3]
      by_cases hk : k' = k
      · subst hk
        rw [if_pos rfl]
        have : ((k', v) :: rest).any (fun p => p.1 = k') = true := by simp
        rw [if_pos this]
        split
        · rw [addUniq_idem]
        · rfl
      · rw [if_neg hk]
        have : ((k', v) :: rest).any (fun p => p.1 = k) =
            rest.any (fun p => p.1 = k) := by
          simp [List.any_cons, hk]
        rw [this]

/-- The record fold of `buildSchema`, tracked on one top-level key. -/
theorem buildSchema_fold_top (k : String) :
    ∀ (ps : List (Nat × DataRecord)) (m : List (String × SchemaNode)),
      (∀ p ∈ ps, ∃ fs, p.2.data = JsonValue.obj fs) →
      recordsWithOf (ps.foldl (fun m p => analyzeValueS p.2.data m p.1) m) k =
        ps.foldl (fun acc p =>
          if containsTopKey p.2.data k then addUniq acc p.1 else acc)
          (recordsWithOf m k) := by
  intro ps
  induction ps with
  | nil => intro m _; rfl
  | cons p rest ih =>
    intro m hobj
    obtain ⟨fs, hfs⟩ := hobj p (by simp)
    simp only [List.foldl_cons]
    rw [ih _ (fun q hq => hobj q (by simp [hq]))]
    have hstep : recordsWithOf (analyzeValueS p.2.data m p.1) k =
        if containsTopKey p.2.data k then addUniq (recordsWithOf m k) p.1
        else recordsWithOf m k := by
      rw [hfs]
      simp only [analyzeValueS, containsTopKey]
      rw [analyzeFields_recordsWithOf k p.1 fs (jsonSize (JsonValue.obj fs)) m 0 ""
        (by simp [jsonSize])]
    rw [hstep]

/-- Folding guarded `addUniq` insertions of distinct fresh indices is a
filter. -/
theorem foldl_addUniq_filter {β : Type} (c : β → Bool) (key : β → Nat) :
    ∀ (ps : List β) (acc : List Nat),
      (∀ p ∈ ps, key p ∉ acc) → (ps.map key).Nodup →
      ps.foldl (fun acc p => if c p then addUniq acc (key p) else acc) acc =
        acc ++ (ps.filter c).map key := by
  intro ps
  induction ps with
  | nil => intro acc _ _; simp
  | cons p rest ih =>
    intro acc hout hnd
    simp only [List.map_cons, List.nodup_cons] at hnd
    by_cases hc : c p = true
    · have hadd : addUniq acc (key p) = acc ++ [key p] := by
        unfold addUniq
        rw [if_neg (hout p (by simp))]
      have hside : ∀ q ∈ rest, key q ∉ acc ++ [key p] := by
        intro q hq
        simp only [List.mem_append, List.mem_singleton]
        push_neg
        refine ⟨hout q (by simp [hq]), ?_⟩
        intro hqp
        exact hnd.1 (hqp ▸ List.mem_map_of_mem key hq)
      simp only [List.foldl_cons]
      rw [if_pos hc, hadd, ih (acc ++ [key p]) hside hnd.2]
      simp [List.filter_cons, hc]
    · have hcf : c p = false := by
        cases hh : c p with
        | false => rfl
        | true => exact absurd hh hc
      simp only [List.foldl_cons]
      rw [if_neg (by rw [hcf]; simp),
        ih acc (fun q hq => hout q (by simp [hq])) hnd.2]
      simp [List.filter_cons, hcf]

theorem enumFrom_filter_snd_len {α : Type} (q : α → Bool) :
    ∀ (l : List α) (n : Nat),
      ((l.enumFrom n).filter (fun p => q p.2)).length = (l.filter q).length := by
  intro l
  induction l with
  | nil => intro n; rfl
  | cons a t ih =>
    intro n
    simp only [List.enumFrom, List.filter_cons]
    cases hq : q a with
    | false => simpa using ih (n + 1)
    | true => simpa using ih (n + 1)

/-- Top-level schema exactness for object-rooted records: the length of
a key's record list equals the number of records whose value contains
that key at top level. -/
theorem buildSchema_top_exact (records : List DataRecord)
    (hobj : ∀ r ∈ records, ∃ fs, r.data = JsonValue.obj fs) (k : String) :
    (recordsWithOf (buildSchema records) k).length =
      (records.filter (fun r => containsTopKey r.data k)).length := by
  unfold buildSchema
  rw [buildSchema_fold_top k records.enum []
    (fun p hp => hobj p.2 (by
      have h := List.mem_enumFrom hp
      rw [h.2.2]
      exact List.getElem_mem _))]
  rw [foldl_addUniq_filter (fun p => containsTopKey p.2.data k) Prod.fst records.enum
    (recordsWithOf [] k) (by intro p _ h; simp [recordsWithOf] at h) ?_]
  · rw [show recordsWithOf [] k = [] from rfl]
    simp only [List.nil_append, List.length_map]
    exact enumFrom_filter_snd_len (fun r => containsTopKey r.data k) records 0
  · exact List.nodup_enum_map_fst records

/-- Claim C2, counterexample: after `updateRecord 5` the map has one
entry, yet the code view's record-change synchronization (with the
current index at 0, which has no modification) sets `hasChanges` to
`false`, violating the invariant the claim asserts. -/
theorem claimC2_counterexample :
    (codeViewSyncRecordChange (updateRecordModel 5 JsonValue.null {})).editor.hasChanges
        = false ∧
    (codeViewSyncRecordChange
        (updateRecordModel 5 JsonValue.null {})).editor.modifiedRecords.length = 1 :=
  ⟨rfl, rfl⟩

/-- Claim C2, amended: the invariant (a nonempty `modifiedRecords` map
implies `hasChanges`) holds after every document-store operation; the
code view's synchronization effects are exempt, since the record-change
effect re-points `hasChanges` at the current record only. -/
theorem claimC2_amended :
    (∀ s i v, editInvariant (updateRecordModel i v s)) ∧
    (∀ s i d, editInvariant (setRecordModificationModel i d s)) ∧
    (∀ s, editInvariant (discardChangesModel s)) ∧
    (∀ s c f, editInvariant s → editInvariant (loadFileModel c f s)) ∧
    (∀ s c f, editInvariant s → editInvariant (loadContentModel c f s)) ∧
    (∀ s, editInvariant (resetModel s)) ∧
    (∀ s b, editInvariant s → editInvariant (setEditModeModel b s)) ∧
    (∀ s i, editInvariant s → editInvariant (setCurrentIndexModel i s)) ∧
    (∀ s, editInvariant s → editInvariant (navigateNextModel s)) ∧
    (∀ s, editInvariant s → editInvariant (navigatePrevModel s)) ∧
    (∀ s t, editInvariant s → editInvariant (setGlobalSearchModel t s)) ∧
    (∀ s t, editInvariant s → editInvariant (setInDocSearchModel t s)) ∧
    (∀ s, editInvariant s → editInvariant (clearSearchModel s)) := by
  refine ⟨?_, ?_, ?_, ?_, ?_, ?_, ?_, ?_, ?_, ?_, ?_, ?_, ?_⟩
  · intro s i v
    intro _
    rfl
  · intro s i d
    intro h
    simp only [setRecordModificationModel] at h ⊢
    have : 0 < (match d with
      | none => mapDelete s.editor.modifiedRecords i
      | some dd => mapSet s.editor.modifiedRecords i dd).length := by
      cases hm : (match d with
        | none => mapDelete s.editor.modifiedRecords i
        | some dd => mapSet s.editor.modifiedRecords i dd) with
      | nil => exact absurd hm h
      | cons a l => simp
    simp [this]
  · intro s h
    exact absurd rfl h
  · intro s c f h
    simp only [loadFileModel]
    split
    · intro hne
      exact absurd rfl hne
    · exact h
  · intro s c f h
    simp only [loadContentModel]
    split
    · intro hne
      exact absurd rfl hne
    · exact h
  · intro s h
    exact absurd rfl h
  · intro s b h
    exact h
  · intro s i h
    unfold setCurrentIndexModel
    split
    · exact h
    · exact h
  · intro s h
    unfold navigateNextModel
    split
    · exact h
    · split
      · exact h
      · exact h
  · intro s h
    unfold navigatePrevModel
    split
    · exact h
    · exact h
  · intro s t h
    exact h
  · intro s t h
    exact h
  · intro s h
    exact h

/-- Claim C2, witness: the amended preservation applied at a concrete
state with one modified record. -/
theorem claimC2_amended_witness :
    editInvariant (setRecordModificationModel 3 (some JsonValue.null) {}) ∧
    editInvariant (loadFileModel "" "x.bin" (updateRecordModel 0 JsonValue.null {})) :=
  ⟨claimC2_amended.2.1 {} 3 (some JsonValue.null),
    claimC2_amended.2.2.2.1 (updateRecordModel 0 JsonValue.null {}) "" "x.bin"
      (fun _ => rfl)⟩

/-- Claim C8: `discardChanges` always leaves an empty modification map
with `hasChanges` false, and so does every successful `loadFile` or
`loadContent`, from any prior state. -/
theorem claimC8_spec :
    (∀ s : DocState, (discardChangesModel s).editor.modifiedRecords = [] ∧
      (discardChangesModel s).editor.hasChanges = false) ∧
    (∀ (s : DocState) (content fn : String) (doc : DataDocument),
      (parseFile content fn { lenient := some true }).document = some doc →
      (parseFile content fn { lenient := some true }).success = true →
      (loadFileModel content fn s).editor.modifiedRecords = [] ∧
        (loadFileModel content fn s).editor.hasChanges = false ∧
        (loadFileModel content fn s).document = some doc) ∧
    (∀ (s : DocState) (content fn : String) (doc : DataDocument),
      (parseFile content fn { lenient := some true }).document = some doc →
      (parseFile content fn { lenient := some true }).success = true →
      (loadContentModel content fn s).editor.modifiedRecords = [] ∧
        (loadContentModel content fn s).editor.hasChanges = false ∧
        (loadContentModel content fn s).document = some doc) := by
  refine ⟨?_, ?_, ?_⟩
  · intro s
    exact ⟨rfl, rfl⟩
  · intro s content fn doc h1 h2
    simp only [loadFileModel]
    rw [h1, h2]
    exact ⟨rfl, rfl, rfl⟩
  · intro s content fn doc h1 h2
    simp only [loadContentModel]
    rw [h1, h2]
    exact ⟨rfl, rfl, rfl⟩

/-- Claim C8, witness: loading the file `{}` named `t.json` after two
record edits clears the modification map and the dirty flag. -/
theorem claimC8_witness :
    (loadFileModel "\x7b\x7d" "t.json"
        (updateRecordModel 1 JsonValue.null
          (updateRecordModel 0 JsonValue.null {}))).editor.modifiedRecords = [] ∧
    (loadFileModel "\x7b\x7d" "t.json"
        (updateRecordModel 1 JsonValue.null
          (updateRecordModel 0 JsonValue.null {}))).editor.hasChanges = false ∧
    (loadFileModel "\x7b\x7d" "t.json"
        (updateRecordModel 1 JsonValue.null
          (updateRecordModel 0 JsonValue.null {}))).document =
      some (jsonDocOf (JsonValue.obj []) "\x7b\x7d" "t.json") :=
  claimC8_spec.2.1 (updateRecordModel 1 JsonValue.null (updateRecordModel 0 JsonValue.null {}))
    "\x7b\x7d" "t.json" (jsonDocOf (JsonValue.obj []) "\x7b\x7d" "t.json") rfl rfl

/-- Claim C3, counterexample: with lenient mode in effect and standard
parsing failing, the pre-pass rewrites a colon-prefixed `undefined` into
`null` — not into a quoted string — and leaves the non-standard literal
`NaN` untouched when it appears as an array element, so `[NaN]` still
fails to parse. -/
theorem claimC3_counterexample :
    lenientJsonParse "\x7b\"a\": undefined\x7d" =
      some (JsonValue.obj [("a", JsonValue.null)]) ∧
    JsonValue.null ≠ JsonValue.str "undefined" ∧
    sanitizeNonStd "[NaN]" = "[NaN]" ∧
    JsonParser.parse "[NaN]" "t.json" { lenient := some true } = jsonFailRes :=
  ⟨rfl, by simp, rfl, rfl⟩

/-- Claim C3, amended: when standard JSON parsing fails and lenient mode
is in effect, `JsonParser.parse` re-parses the output of the sanitizing
pre-pass; that pre-pass rewrites only occurrences of `NaN`, `Infinity`,
`-Infinity` and `undefined` that directly follow a colon (optionally
separated by whitespace), turning the first three into quoted strings
but `undefined` into the literal `null`; occurrences anywhere else —
in particular array elements, and all of any colon-free input — are
left unchanged. -/
theorem claimC3_amended :
    (∀ (content fn : String) (opts : ParseOptions),
      jsonParse content = none → opts.lenient = some true →
      JsonParser.parse content fn opts =
        match lenientJsonParse content with
        | some parsed =>
          { success := true
            document := some (jsonDocOf parsed content fn)
            errors := [{ message := "File contained non-standard JSON values (NaN, Infinity, etc.)"
                         severity := .warning }] }
        | none => jsonFailRes) ∧
    sanitizeNonStd "\x7b\"a\": NaN\x7d" = "\x7b\"a\": \"NaN\"\x7d" ∧
    sanitizeNonStd "\x7b\"a\":Infinity\x7d" = "\x7b\"a\": \"Infinity\"\x7d" ∧
    sanitizeNonStd "\x7b\"a\": -Infinity\x7d" = "\x7b\"a\": \"-Infinity\"\x7d" ∧
    sanitizeNonStd "\x7b\"a\": undefined\x7d" = "\x7b\"a\": null\x7d" ∧
    sanitizeNonStd "[NaN, Infinity, undefined]" = "[NaN, Infinity, undefined]" ∧
    (∀ cs : List Char, ':' ∉ cs → sanitizeNonStd (String.mk cs) = String.mk cs) := by
  refine ⟨?_, rfl, rfl, rfl, rfl, rfl, ?_⟩
  · intro content fn opts h1 h2
    simp only [JsonParser.parse, h1]
    rw [if_pos h2]
  · intro cs hno
    simp only [sanitizeNonStd, replaceColonLit, replColGo_no_colon _ _ _ _ hno]

/-- Claim C3, witness: the amended statement applied to the unparseable
input `[NaN]` with lenient mode on, and to the colon-free input `ab`. -/
theorem claimC3_amended_witness :
    jsonParse "[NaN]" = none ∧
    JsonParser.parse "[NaN]" "x" { lenient := some true } =
      (match lenientJsonParse "[NaN]" with
      | some parsed =>
        { success := true
          document := some (jsonDocOf parsed "[NaN]" "x")
          errors := [{ message := "File contained non-standard JSON values (NaN, Infinity, etc.)"
                       severity := .warning }] }
      | none => jsonFailRes) ∧
    ':' ∉ "ab".data ∧
    sanitizeNonStd (String.mk "ab".data) = String.mk "ab".data :=
  ⟨rfl, claimC3_amended.1 "[NaN]" "x" { lenient := some true } rfl rfl, by decide,
    claimC3_amended.2.2.2.2.2.2 "ab".data (by decide)⟩

/-- The non-blank lines of the input are the filtered lines the JSONL
loop actually visits, trimmed. -/
theorem nbLines_as_filter (content : String) :
    nbLines content.data =
      ((splitOnNl (trimChars content.data)).filter
        (fun l => !(trimChars l).isEmpty)).map trimChars := by
  rw [← nbLines_trim, nbLines_eq_map_filter]

theorem nbLines_loop_len (content : String) :
    (nbLines content.data).length =
      ((splitOnNl (trimChars content.data)).filter
        (fun l => !(trimChars l).isEmpty)).length := by
  rw [nbLines_as_filter, List.length_map]

/-- Shape of a successful `JsonlParser.parse` result, exposing the line
loop's output. -/
theorem jsonlParse_success_shape (content fn : String) (opts : ParseOptions)
    (hmax : opts.maxRecords = none)
    (hne : ¬(jsonlLoop (opts.lenient != some false) none
        (splitOnNl (trimChars content.data)) 0 0).1.length = 0) :
    (JsonlParser.parse content fn opts).success = true ∧
    (JsonlParser.parse content fn opts).document = some
      { id := generateId
        fileName := fn
        format := "jsonl"
        records := (jsonlLoop (opts.lenient != some false) none
          (splitOnNl (trimChars content.data)) 0 0).1
        meta := { lineCount := some (splitOnNl (trimChars content.data)).length }
        isMultiRecord := true
        totalRecords := (jsonlLoop (opts.lenient != some false) none
          (splitOnNl (trimChars content.data)) 0 0).1.length
        totalSize := (jsonlLoop (opts.lenient != some false) none
          (splitOnNl (trimChars content.data)) 0 0).2.2 } ∧
    (JsonlParser.parse content fn opts).errors =
      (jsonlLoop (opts.lenient != some false) none
        (splitOnNl (trimChars content.data)) 0 0).2.1 := by
  simp only [JsonlParser.parse, hmax]
  rw [if_neg hne]
  refine ⟨?_, rfl, rfl⟩
  have hd : decide (0 < (jsonlLoop (opts.lenient != some false) none
      (splitOnNl (trimChars content.data)) 0 0).1.length) = true := by
    simp [Nat.pos_of_ne_zero hne]
  rw [hd, Bool.or_true]

/-- Claim C9: `JsonlParser.parse` succeeds exactly when the input has a
non-blank line — even if every line fails to parse — and otherwise
fails with the single no-valid-objects error and no document. -/
theorem claimC9 (content fn : String) (opts : ParseOptions)
    (hmax : opts.maxRecords = none) :
    (nbLines content.data ≠ [] → (JsonlParser.parse content fn opts).success = true) ∧
    (nbLines content.data = [] →
      JsonlParser.parse content fn opts =
        { success := false
          errors := [{ message := "No valid JSON objects found in file",
                       severity := .error }] }) := by
  constructor
  · intro hne
    have hlen := (jsonlLoop_spec (opts.lenient != some false)
      (splitOnNl (trimChars content.data)) 0 0).1
    have hnz : ¬(jsonlLoop (opts.lenient != some false) none
        (splitOnNl (trimChars content.data)) 0 0).1.length = 0 := by
      rw [hlen, ← nbLines_loop_len]
      simpa using hne
    exact (jsonlParse_success_shape content fn opts hmax hnz).1
  · intro h0
    have hblank : ∀ l ∈ splitOnNl (trimChars content.data),
        (trimChars l).isEmpty = true := by
      have h1 : ((splitOnNl (trimChars content.data)).filter
          (fun l => !(trimChars l).isEmpty)).map trimChars = [] := by
        rw [← nbLines_as_filter]; exact h0
      have h2 := List.map_eq_nil_iff.mp h1
      intro l hl
      have h3 := List.filter_eq_nil_iff.mp h2 l hl
      simpa using h3
    simp only [JsonlParser.parse, hmax,
      jsonlLoop_blank (opts.lenient != some false) none _ hblank 0 0]
    simp

/-- Claim C9, witness: the single unparseable line `x` still loads with
success, while the all-blank input fails with the single error. -/
theorem claimC9_witness :
    (({} : ParseOptions).maxRecords = none ∧ nbLines "x".data ≠ [] ∧
      (JsonlParser.parse "x" "t.jsonl" {}).success = true) ∧
    (nbLines " \n ".data = [] ∧
      JsonlParser.parse " \n " "t.jsonl" {} =
        { success := false
          errors := [{ message := "No valid JSON objects found in file",
                       severity := .error }] }) :=
  ⟨⟨rfl, by decide, (claimC9 "x" "t.jsonl" {} rfl).1 (by decide)⟩,
    ⟨by decide, (claimC9 " \n " "t.jsonl" {} rfl).2 (by decide)⟩⟩

/-- Claim C1: with no record limit, a JSONL input with non-blank lines
loads into a document with exactly one record per non-blank line, in
input order (witnessed by the raw texts), and a record's error list is
empty exactly when its line parses (so a failing line still contributes
a record, with a non-empty error list, without aborting the load). -/
theorem claimC1 (content fn : String) (opts : ParseOptions)
    (hmax : opts.maxRecords = none) (hnb : nbLines content.data ≠ []) :
    ∃ doc, (JsonlParser.parse content fn opts).document = some doc ∧
      (JsonlParser.parse content fn opts).success = true ∧
      doc.records.length = (nbLines content.data).length ∧
      doc.records.map (fun r => r.raw) = (nbLines content.data).map String.mk ∧
      doc.records.map (fun r => r.errors.isEmpty) =
        (nbLines content.data).map
          (fun l => (jsonlTryParse (opts.lenient != some false) (String.mk l)).isSome) := by
  obtain ⟨hlen, hraw, hidx, herr, hprov⟩ :=
    jsonlLoop_spec (opts.lenient != some false) (splitOnNl (trimChars content.data)) 0 0
  have hnz : ¬(jsonlLoop (opts.lenient != some false) none
      (splitOnNl (trimChars content.data)) 0 0).1.length = 0 := by
    rw [hlen, ← nbLines_loop_len]
    simpa using hnb
  obtain ⟨hsucc, hdoc, _⟩ := jsonlParse_success_shape content fn opts hmax hnz
  refine ⟨_, hdoc, hsucc, ?_, ?_, ?_⟩
  · rw [hlen, ← nbLines_loop_len]
  · rw [hraw, nbLines_as_filter, List.map_map]
    rfl
  · rw [herr, nbLines_as_filter, List.map_map]
    rfl

/-- Claim C1, witness: two non-blank lines, the second unparseable,
load as two records with the failure recorded in place. -/
theorem claimC1_witness :
    ({} : ParseOptions).maxRecords = none ∧ nbLines "1\nnope".data ≠ [] ∧
    ∃ doc, (JsonlParser.parse "1\nnope" "t.jsonl" {}).document = some doc ∧
      (JsonlParser.parse "1\nnope" "t.jsonl" {}).success = true ∧
      doc.records.length = (nbLines "1\nnope".data).length ∧
      doc.records.map (fun r => r.raw) = (nbLines "1\nnope".data).map String.mk ∧
      doc.records.map (fun r => r.errors.isEmpty) =
        (nbLines "1\nnope".data).map
          (fun l => (jsonlTryParse (({} : ParseOptions).lenient != some false)
            (String.mk l)).isSome) :=
  ⟨rfl, by decide, claimC1 "1\nnope" "t.jsonl" {} rfl (by decide)⟩

/-- Claim C5: a valid JSON input loads as a single record whose
re-serialization parses back to the same JSON value — structural
round-tripping through `JsonParser.parse` and `JsonParser.serialize`. -/
theorem claimC5 (content fn : String) (opts : ParseOptions) (v : JsonValue)
    (h : jsonParse content = some v) :
    ∃ doc, (JsonParser.parse content fn opts).success = true ∧
      (JsonParser.parse content fn opts).document = some doc ∧
      doc.records.length = 1 ∧
      doc.records.map (fun r => r.data) = [v] ∧
      jsonParse (JsonParser.serialize doc) = some v := by
  refine ⟨jsonDocOf v content fn, ?_, ?_, rfl, rfl, ?_⟩
  · simp only [JsonParser.parse, h]
  · simp only [JsonParser.parse, h]
  · show jsonParse (stringifyJson v) = some v
    exact jsonParse_stringify v

/-- Claim C5, witness: the round trip at the concrete input `[1, 2]`. -/
theorem claimC5_witness :
    jsonParse "[1, 2]" = some ((jsonParse "[1, 2]").getD JsonValue.null) ∧
    ∃ doc, (JsonParser.parse "[1, 2]" "t.json" {}).success = true ∧
      (JsonParser.parse "[1, 2]" "t.json" {}).document = some doc ∧
      doc.records.length = 1 ∧
      doc.records.map (fun r => r.data) = [(jsonParse "[1, 2]").getD JsonValue.null] ∧
      jsonParse (JsonParser.serialize doc) =
        some ((jsonParse "[1, 2]").getD JsonValue.null) :=
  ⟨rfl, claimC5 "[1, 2]" "t.json" {} ((jsonParse "[1, 2]").getD JsonValue.null) rfl⟩

/-- Claim C10, counterexample: in the input `"\nbad"` the unparseable
line `bad` is line 2 of the original file, yet the error message reports
`Line 1` — the line number indexes the lines of the trimmed content, not
the original file. -/
theorem claimC10_counterexample :
    (splitOnNl "\nbad".data).length = 2 ∧
    (splitOnNl "\nbad".data).getD 1 [] = "bad".data ∧
    trimJS "\nbad" = "bad" ∧
    (JsonlParser.parse "\nbad" "t.jsonl" {}).errors =
      [{ line := some 1, message := lineErrMsg 1, severity := .error }] ∧
    lineErrMsg 1 = "Line 1: Unexpected token in JSON" :=
  ⟨rfl, rfl, rfl, rfl, rfl⟩

/-- Claim C10, amended: record indices are dense, zero-based and in
order for all three parsers, and JSONL record indices count only
non-blank lines; but the line numbers carried by JSONL parse errors
index the lines of the *trimmed* content (a failing line is reported at
its position after leading blank lines are trimmed away), not the
original file. -/
theorem claimC10_amended :
    (∀ (content fn : String) (opts : ParseOptions) (doc : DataDocument),
      (JsonParser.parse content fn opts).document = some doc →
      doc.records.map (fun r => r.index) = List.range doc.records.length) ∧
    (∀ (content fn : String) (opts : ParseOptions) (doc : DataDocument),
      opts.maxRecords = none →
      (JsonlParser.parse content fn opts).document = some doc →
      doc.records.map (fun r => r.index) = List.range doc.records.length ∧
      doc.records.length = (nbLines content.data).length) ∧
    (∀ (content fn : String) (opts : ParseOptions) (doc : DataDocument),
      (CsvParser.parse content fn opts).document = some doc →
      doc.records.map (fun r => r.index) = List.range doc.records.length) ∧
    (∀ (content fn : String) (opts : ParseOptions) (e : ParseError),
      opts.maxRecords = none →
      e ∈ (JsonlParser.parse content fn opts).errors → e.line ≠ none →
      ∃ k, k < (splitOnNl (trimChars content.data)).length ∧
        e.line = some (k + 1) ∧
        (trimChars ((splitOnNl (trimChars content.data)).getD k [])).isEmpty = false ∧
        jsonlTryParse (opts.lenient != some false)
          (String.mk (trimChars ((splitOnNl (trimChars content.data)).getD k []))) =
            none) := by
  refine ⟨?_, ?_, ?_, ?_⟩
  · intro content fn opts doc h
    cases hj : jsonParse content with
    | some v =>
      simp only [JsonParser.parse, hj] at h
      have hd : doc = jsonDocOf v content fn := by simpa using h.symm
      subst hd
      rfl
    | none =>
      cases hp : lenientJsonParse content with
      | some v =>
        simp only [JsonParser.parse, hj, hp] at h
        split at h
        · have hd : doc = jsonDocOf v content fn := by simpa using h.symm
          subst hd
          rfl
        · exact absurd h (by simp [jsonFailRes])
      | none =>
        simp only [JsonParser.parse, hj, hp] at h
        split at h
        · exact absurd h (by simp [jsonFailRes])
        · exact absurd h (by simp [jsonFailRes])
  · intro content fn opts doc hmax h
    obtain ⟨hlen, _, hidx, _, _⟩ :=
      jsonlLoop_spec (opts.lenient != some false) (splitOnNl (trimChars content.data)) 0 0
    simp only [JsonlParser.parse, hmax] at h
    split at h
    · simp at h
    · simp only [Option.some.injEq] at h
      subst h
      refine ⟨?_, ?_⟩
      · rw [hidx, hlen, List.range_eq_range']
      · rw [hlen, ← nbLines_loop_len]
  · intro content fn opts doc h
    simp only [CsvParser.parse] at h
    split at h
    · simp at h
    · simp only [Option.some.injEq] at h
      subst h
      simp only [List.map_map, List.length_map, List.enum_length]
      have : ((fun r : DataRecord => r.index) ∘ (fun p : Nat × JsonValue =>
          ({ index := p.1, data := p.2, raw := unparseRow p.2, errors := [],
             size := (printVal p.2).length } : DataRecord))) =
          Prod.fst := rfl
      rw [this, List.enum_map_fst]
  · intro content fn opts e hmax he hline
    obtain ⟨_, _, _, _, hprov⟩ :=
      jsonlLoop_spec (opts.lenient != some false) (splitOnNl (trimChars content.data)) 0 0
    simp only [JsonlParser.parse, hmax] at he
    split at he
    · simp only at he
      rcases List.mem_append.mp he with he1 | he2
      · obtain ⟨k, hk, h1, _, h3, h4, _⟩ := hprov e he1
        exact ⟨k, hk, by simpa using h1, h3, h4⟩
      · simp only [List.mem_singleton] at he2
        subst he2
        exact absurd rfl hline
    · simp only at he
      obtain ⟨k, hk, h1, _, h3, h4, _⟩ := hprov e he
      exact ⟨k, hk, by simpa using h1, h3, h4⟩

/-- Claim C10, witness: density at a concrete document of each parser,
and the error-line provenance at the input `"\nbad"`. -/
theorem claimC10_amended_witness :
    ((JsonParser.parse "\x7b\x7d" "t.json" {}).document =
        some (jsonDocOf (JsonValue.obj []) "\x7b\x7d" "t.json") ∧
      (jsonDocOf (JsonValue.obj []) "\x7b\x7d" "t.json").records.map (fun r => r.index) =
        List.range (jsonDocOf (JsonValue.obj []) "\x7b\x7d" "t.json").records.length) ∧
    (({} : ParseOptions).maxRecords = none ∧
      (JsonlParser.parse "1\n\n2" "t.jsonl" {}).document =
        some ((JsonlParser.parse "1\n\n2" "t.jsonl" {}).document.getD
          (jsonDocOf JsonValue.null "" "")) ∧
      ((JsonlParser.parse "1\n\n2" "t.jsonl" {}).document.getD
          (jsonDocOf JsonValue.null "" "")).records.map (fun r => r.index) =
        List.range ((JsonlParser.parse "1\n\n2" "t.jsonl" {}).document.getD
          (jsonDocOf JsonValue.null "" "")).records.length ∧
      ((JsonlParser.parse "1\n\n2" "t.jsonl" {}).document.getD
          (jsonDocOf JsonValue.null "" "")).records.length =
        (nbLines "1\n\n2".data).length) ∧
    ((CsvParser.parse "a,b\n1,2" "t.csv" {}).document =
        some ((CsvParser.parse "a,b\n1,2" "t.csv" {}).document.getD
          (jsonDocOf JsonValue.null "" "")) ∧
      ((CsvParser.parse "a,b\n1,2" "t.csv" {}).document.getD
          (jsonDocOf JsonValue.null "" "")).records.map (fun r => r.index) =
        List.range ((CsvParser.parse "a,b\n1,2" "t.csv" {}).document.getD
          (jsonDocOf JsonValue.null "" "")).records.length) ∧
    (({ line := some 1, message := lineErrMsg 1, severity := .error } : ParseError) ∈
        (JsonlParser.parse "\nbad" "t.jsonl" {}).errors ∧
      ({ line := some 1, message := lineErrMsg 1, severity := .error } : ParseError).line ≠
        none ∧
      ∃ k, k < (splitOnNl (trimChars "\nbad".data)).length ∧
        ({ line := some 1, message := lineErrMsg 1, severity := .error } : ParseError).line =
          some (k + 1) ∧
        (trimChars ((splitOnNl (trimChars "\nbad".data)).getD k [])).isEmpty = false ∧
        jsonlTryParse (({} : ParseOptions).lenient != some false)
          (String.mk (trimChars ((splitOnNl (trimChars "\nbad".data)).getD k []))) =
            none) :=
  ⟨⟨rfl, claimC10_amended.1 "\x7b\x7d" "t.json" {}
      (jsonDocOf (JsonValue.obj []) "\x7b\x7d" "t.json") rfl⟩,
    ⟨rfl, rfl,
      (claimC10_amended.2.1 "1\n\n2" "t.jsonl" {}
        ((JsonlParser.parse "1\n\n2" "t.jsonl" {}).document.getD
          (jsonDocOf JsonValue.null "" "")) rfl rfl).1,
      (claimC10_amended.2.1 "1\n\n2" "t.jsonl" {}
        ((JsonlParser.parse "1\n\n2" "t.jsonl" {}).document.getD
          (jsonDocOf JsonValue.null "" "")) rfl rfl).2⟩,
    ⟨rfl, claimC10_amended.2.2.1 "a,b\n1,2" "t.csv" {}
      ((CsvParser.parse "a,b\n1,2" "t.csv" {}).document.getD
        (jsonDocOf JsonValue.null "" "")) rfl⟩,
    ⟨by decide, by decide,
      claimC10_amended.2.2.2 "\nbad" "t.jsonl" {}
        { line := some 1, message := lineErrMsg 1, severity := .error }
        rfl (by decide) (by decide)⟩⟩

/-- Claim C4, counterexample: the schema walk samples only the first
three items of a nested array, so a field occurring in a later item is
missed — the reported presence count for path `a.x` is 1 although both
records contain `a.x`. -/
theorem claimC4_counterexample :
    schemaCountAtPath (buildSchema
      [{ index := 0, data := .obj [("a", .arr [.obj [("x", .num false 1 0)]])],
         raw := "", errors := [], size := 0 },
       { index := 1, data := .obj [("a", .arr [.null, .null, .null,
           .obj [("x", .num false 1 0)]])], raw := "", errors := [], size := 0 }])
      ["a", "x"] = some 1 ∧
    ([({ index := 0, data := .obj [("a", .arr [.obj [("x", .num false 1 0)]])],
         raw := "", errors := [], size := 0 } : DataRecord),
       { index := 1, data := .obj [("a", .arr [.null, .null, .null,
           .obj [("x", .num false 1 0)]])], raw := "", errors := [], size := 0 }].filter
      (fun r => containsPath r.data ["a", "x"])).length = 2 := by
  exact ⟨by decide, by decide⟩

/-- Claim C4, amended: for top-level fields of object-rooted records the
reported presence count is exact (and the consistency flag compares that
count with the record total), and the spec's concrete example holds; but
exactness fails in general for nested fields because array items beyond
the sampling caps are never analysed. -/
theorem claimC4_amended :
    (∀ (records : List DataRecord),
      (∀ r ∈ records, ∃ fs, r.data = JsonValue.obj fs) →
      ∀ (k : String) (n : Nat),
        schemaCountAtPath (buildSchema records) [k] = some n →
        n = (records.filter (fun r => containsTopKey r.data k)).length) ∧
    (∀ (n : SchemaNode) (total : Nat),
      nodeConsistent n total = true ↔ n.recordsWith.length = total) ∧
    (schemaCountAtPath (buildSchema
        ((JsonlParser.parse "\x7b\"a\":1\x7d\n\x7b\"a\":2,\"b\":3\x7d" "t.jsonl"
          {}).document.getD (jsonDocOf JsonValue.null "" "")).records) ["a"] = some 2 ∧
      schemaCountAtPath (buildSchema
        ((JsonlParser.parse "\x7b\"a\":1\x7d\n\x7b\"a\":2,\"b\":3\x7d" "t.jsonl"
          {}).document.getD (jsonDocOf JsonValue.null "" "")).records) ["b"] = some 1 ∧
      ((JsonlParser.parse "\x7b\"a\":1\x7d\n\x7b\"a\":2,\"b\":3\x7d" "t.jsonl"
          {}).document.getD (jsonDocOf JsonValue.null "" "")).records.length = 2 ∧
      ((buildSchema ((JsonlParser.parse "\x7b\"a\":1\x7d\n\x7b\"a\":2,\"b\":3\x7d" "t.jsonl"
          {}).document.getD (jsonDocOf JsonValue.null "" "")).records).find?
        (fun p => p.1 = "a")).map (fun p => nodeConsistent p.2 2) = some true ∧
      ((buildSchema ((JsonlParser.parse "\x7b\"a\":1\x7d\n\x7b\"a\":2,\"b\":3\x7d" "t.jsonl"
          {}).document.getD (jsonDocOf JsonValue.null "" "")).records).find?
        (fun p => p.1 = "b")).map (fun p => nodeConsistent p.2 2) = some false) := by
  refine ⟨?_, ?_, by decide, by decide, by decide, by decide, by decide⟩
  · intro records hobj k n h
    have hpath : schemaCountAtPath (buildSchema records) [k] =
        ((buildSchema records).find? (fun p => p.1 = k)).map
          (fun p => p.2.recordsWith.length) := rfl
    rw [hpath] at h
    cases hf : (buildSchema records).find? (fun p => p.1 = k) with
    | none => rw [hf] at h; cases h
    | some pr =>
      rw [hf] at h
      rw [Option.map_some'] at h
      injection h with h
      have hrw : recordsWithOf (buildSchema records) k = pr.2.recordsWith := by
        unfold recordsWithOf
        rw [hf]
        rfl
      rw [← h, ← hrw]
      exact buildSchema_top_exact records hobj k
  · intro n total
    unfold nodeConsistent
    constructor
    · intro h
      exact eq_of_beq h
    · intro h
      rw [h]
      exact beq_self_eq_true total

/-- Claim C4, witness: top-level exactness applied to two concrete
object-rooted records, of which exactly one has the field `a`. -/
theorem claimC4_amended_witness :
    (∀ r : DataRecord,
      r ∈ [({ index := 0, data := JsonValue.obj [("a", JsonValue.null)], raw := "", errors := [], size := 0 } : DataRecord),
        { index := 1, data := JsonValue.obj [], raw := "", errors := [], size := 0 }] →
      ∃ fs, r.data = JsonValue.obj fs) ∧
    schemaCountAtPath (buildSchema
      [({ index := 0, data := JsonValue.obj [("a", JsonValue.null)], raw := "", errors := [], size := 0 } : DataRecord),
        { index := 1, data := JsonValue.obj [], raw := "", errors := [], size := 0 }])
      ["a"] = some 1 ∧
    1 = ([({ index := 0, data := JsonValue.obj [("a", JsonValue.null)], raw := "", errors := [], size := 0 } : DataRecord),
        { index := 1, data := JsonValue.obj [], raw := "", errors := [], size := 0 }].filter
      (fun r => containsTopKey r.data "a")).length := by
  refine ⟨?_, by decide, ?_⟩
  · intro r hr
    rcases List.mem_cons.mp hr with rfl | hr2
    · exact ⟨_, rfl⟩
    · rcases List.mem_cons.mp hr2 with rfl | h3
      · exact ⟨_, rfl⟩
      · cases h3
  · exact claimC4_amended.1 _ (by
      intro r hr
      rcases List.mem_cons.mp hr with rfl | hr2
      · exact ⟨_, rfl⟩
      · rcases List.mem_cons.mp hr2 with rfl | h3
        · exact ⟨_, rfl⟩
        · cases h3) "a" 1 (by decide)

/-- Folding `jsObjSet` over zipped header/value pairs with fresh keys
appends one entry per key. -/
theorem foldSet_keys :
    ∀ (ps : List (String × String)) (acc : List (String × JsonValue)),
      (ps.map Prod.fst).Nodup →
      (∀ k ∈ ps.map Prod.fst, acc.any (fun q => q.1 = k) = false) →
      (ps.foldl (fun acc p => jsObjSet acc p.1 (dynamicType p.2)) acc).map Prod.fst =
        acc.map Prod.fst ++ ps.map Prod.fst := by
  intro ps
  induction ps with
  | nil => intro acc _ _; simp
  | cons p rest ih =>
    intro acc hnd hfresh
    simp only [List.map_cons, List.nodup_cons] at hnd
    have habs : acc.any (fun q => q.1 = p.1) = false := hfresh p.1 (by simp)
    have hset : jsObjSet acc p.1 (dynamicType p.2) = acc ++ [(p.1, dynamicType p.2)] := by
      unfold jsObjSet
      rw [if_neg (by simp [habs])]
    simp only [List.foldl_cons, hset]
    rw [ih (acc ++ [(p.1, dynamicType p.2)]) hnd.2 ?_]
    · simp
    · intro k hk
      have h1 : acc.any (fun q => q.1 = k) = false := hfresh k (by simp [hk])
      have h2 : ¬p.1 = k := by
        intro he
        exact hnd.1 (he ▸ hk)
      simp [List.any_append, h1, h2]

/-- One CSV data row of exactly the header's width, under a
duplicate-free header, produces an object keyed by the header and no
field-mismatch error. -/
theorem applyHeaderRow_exact (header row : List String) (idx : Nat)
    (hnd : header.Nodup) (hlen : row.length = header.length) :
    (applyHeaderRow header row idx).1.map Prod.fst = header ∧
    (applyHeaderRow header row idx).2 = [] := by
  unfold applyHeaderRow
  rw [if_neg (by omega), if_neg (by omega)]
  have hz : (List.zip header row).map Prod.fst = header :=
    List.map_fst_zip header row (by omega)
  refine ⟨?_, rfl⟩
  rw [foldSet_keys (List.zip header row) [] (by rw [hz]; exact hnd)
    (by intro k _; rfl), hz]
  rfl

theorem applyHeader_exact (header : List String) (hnd : header.Nodup) :
    ∀ (rows : List (List String)) (idx : Nat),
      (∀ r ∈ rows, r.length = header.length) →
      (applyHeader header rows idx).2 = [] ∧
      (applyHeader header rows idx).1.length = rows.length ∧
      ∀ v ∈ (applyHeader header rows idx).1, objKeys v = header := by
  intro rows
  induction rows with
  | nil => intro idx _; exact ⟨rfl, rfl, by simp [applyHeader]⟩
  | cons row rest ih =>
    intro idx hlen
    obtain ⟨hk, he⟩ := applyHeaderRow_exact header row idx hnd (hlen row (by simp))
    obtain ⟨ih1, ih2, ih3⟩ := ih (idx + 1) (fun r hr => hlen r (by simp [hr]))
    simp only [applyHeader]
    refine ⟨by rw [he, ih1]; rfl, by simp [ih2], ?_⟩
    intro v hv
    rcases List.mem_cons.mp hv with rfl | hv2
    · show (applyHeaderRow header row idx).1.map Prod.fst = header
      exact hk
    · exact ih3 v hv2

/-- Claim C6, counterexample: a data row longer than the header gets the
surplus fields under the extra key `__parsed_extra`, so its keys are not
the header fields and the inferred column count exceeds the header
width. -/
theorem claimC6_counterexample :
    csvHasHeader ({} : ParseOptions) = true ∧
    csvRows "a,b\n1,2,3" "t.csv" {} = [["a", "b"], ["1", "2", "3"]] ∧
    ((CsvParser.parse "a,b\n1,2,3" "t.csv" {}).document.map
      (fun d => d.records.map (fun r => objKeys r.data))) =
        some [["a", "b", "__parsed_extra"]] ∧
    ((CsvParser.parse "a,b\n1,2,3" "t.csv" {}).document.map
      (fun d => d.meta.columns.map (fun cs => cs.length))) = some (some 3) :=
  ⟨rfl, rfl, rfl, rfl⟩

/-- Claim C6, amended: for CSV input with a header row whose fields are
distinct and whose data rows all have exactly the header's width, the
inferred column count equals the header width and every record's keys
are exactly the header fields; rows of a different width break this via
`__parsed_extra` or missing keys. -/
theorem claimC6_amended (content fn : String) (opts : ParseOptions)
    (header : List String) (dataRows : List (List String))
    (hh : csvHasHeader opts = true)
    (hr : csvRows content fn opts = header :: dataRows)
    (hnd : header.Nodup)
    (hlen : ∀ r ∈ dataRows, r.length = header.length)
    (hne : dataRows ≠ []) :
    ∃ doc, (CsvParser.parse content fn opts).document = some doc ∧
      doc.meta.columns.map (fun cs => cs.length) = some header.length ∧
      doc.records.length = dataRows.length ∧
      ∀ r ∈ doc.records, objKeys r.data = header := by
  have happ : csvApplied content fn opts = applyHeader header dataRows 0 := by
    simp [csvApplied, hh, hr]
  obtain ⟨herr2, hlen2, hkeys⟩ := applyHeader_exact header hnd dataRows 0 hlen
  have hlen0 : ¬(csvApplied content fn opts).1.length = 0 := by
    rw [happ, hlen2]
    intro h0
    exact hne (List.length_eq_zero.mp h0)
  simp only [CsvParser.parse]
  rw [if_neg hlen0]
  refine ⟨_, rfl, ?_, ?_, ?_⟩
  · cases hdo : (csvApplied content fn opts).1 with
    | nil => rw [hdo] at hlen0; simp at hlen0
    | cons v rest =>
      have hv : objKeys v = header := by
        refine hkeys v ?_
        rw [← happ, hdo]
        simp
      simp only [Option.map_some']
      rw [show inferColumns (v :: rest) = (objKeys v).map (fun key =>
        { field := key, headerName := key, type := inferColumnType (v :: rest) key,
          sortable := true, filterable := true }) from rfl, hv]
      simp [hdo]
  · rw [List.length_map, List.enum_length, happ, hlen2]
  · intro r hrm
    have hdata : r.data ∈ (csvApplied content fn opts).1 := by
      obtain ⟨p, hp, hpe⟩ := List.mem_map.mp hrm
      have : r.data = p.2 := by rw [← hpe]
      rw [this]
      have h2 := List.mem_enumFrom hp
      rw [h2.2.2]
      exact List.getElem_mem _
    rw [happ] at hdata
    exact hkeys r.data hdata

/-- Claim C6, witness: the amended statement at the concrete input
`a,b` over `1,2`. -/
theorem claimC6_witness :
    csvHasHeader ({} : ParseOptions) = true ∧
    csvRows "a,b\n1,2" "t.csv" {} = [["a", "b"], ["1", "2"]] ∧
    (["a", "b"] : List String).Nodup ∧
    (∀ r ∈ [["1", "2"]], List.length r = (["a", "b"] : List String).length) ∧
    ([["1", "2"]] : List (List String)) ≠ [] ∧
    ∃ doc, (CsvParser.parse "a,b\n1,2" "t.csv" {}).document = some doc ∧
      doc.meta.columns.map (fun cs => cs.length) = some (["a", "b"] : List String).length ∧
      doc.records.length = [["1", "2"]].length ∧
      ∀ r ∈ doc.records, objKeys r.data = ["a", "b"] :=
  ⟨rfl, rfl, by decide, by decide, by decide,
    claimC6_amended "a,b\n1,2" "t.csv" {} ["a", "b"] [["1", "2"]] rfl rfl
      (by decide) (by decide) (by decide)⟩

/-- Shape of a `CsvParser.parse` result that carries a document: its
error list is the classified library errors, and the success flag is
exactly "no error-severity entry among them". -/
theorem csvParse_doc_shape (content fn : String) (opts : ParseOptions) (doc : DataDocument)
    (h : (CsvParser.parse content fn opts).document = some doc) :
    (CsvParser.parse content fn opts).errors =
      (csvPapaErrs content fn opts).map csvClassify ∧
    ((CsvParser.parse content fn opts).success = true ↔
      (((csvPapaErrs content fn opts).map csvClassify).filter
        (fun e => e.severity = Severity.error)).length = 0) := by
  by_cases h0 : (csvApplied content fn opts).1.length = 0
  · exfalso
    simp only [CsvParser.parse] at h
    rw [if_pos h0] at h
    simp at h
  · simp only [CsvParser.parse]
    rw [if_neg h0]
    exact ⟨rfl, decide_eq_true_iff⟩

/-- Claim C7, counterexample: an unterminated quote yields a
`MissingQuotes` library error classified with severity `error`; the
parse still builds a document but reports `success = false`, and
`loadFile` then refuses to install the document and records a load
error instead — the error does block the document from loading. -/
theorem claimC7_counterexample :
    (CsvParser.parse "a,b\nc,\"x" "t.csv" {}).errors.map (fun e => e.severity) =
      [Severity.error] ∧
    (CsvParser.parse "a,b\nc,\"x" "t.csv" {}).document.isSome = true ∧
    (CsvParser.parse "a,b\nc,\"x" "t.csv" {}).success = false ∧
    getParserForFile "t.csv" (some "a,b\nc,\"x") = some "csv" ∧
    (loadFileModel "a,b\nc,\"x" "t.csv" {}).document = none ∧
    (loadFileModel "a,b\nc,\"x" "t.csv" {}).loadError.isSome = true :=
  ⟨rfl, rfl, rfl, rfl, rfl, rfl⟩

/-- Claim C7, amended: `FieldMismatch` library errors are classified as
warnings and all other library errors as errors; a document whose
library errors are all `FieldMismatch` loads with `success = true`, but
any error-severity entry forces `success = false`, and a failed parse
makes `loadFile` keep the previous document and record a load error —
so non-mismatch parse errors do block the load. -/
theorem claimC7_amended :
    (∀ pe : PapaErr, (csvClassify pe).severity =
      if pe.type = "FieldMismatch" then Severity.warning else Severity.error) ∧
    (∀ (content fn : String) (opts : ParseOptions) (doc : DataDocument),
      (CsvParser.parse content fn opts).document = some doc →
      ((CsvParser.parse content fn opts).success = true ↔
        (((csvPapaErrs content fn opts).map csvClassify).filter
          (fun e => e.severity = Severity.error)).length = 0)) ∧
    (∀ (content fn : String) (opts : ParseOptions) (doc : DataDocument),
      (CsvParser.parse content fn opts).document = some doc →
      (∀ pe ∈ csvPapaErrs content fn opts, pe.type = "FieldMismatch") →
      (CsvParser.parse content fn opts).success = true) ∧
    (∀ (content fn : String) (s : DocState),
      (parseFile content fn { lenient := some true }).success = false →
      (loadFileModel content fn s).document = s.document ∧
      (loadFileModel content fn s).loadError = some (firstErrMsg
        (parseFile content fn { lenient := some true }) "Failed to parse file")) ∧
    (∀ (content fn : String) (opts : ParseOptions),
      getParserForFile fn (some content) = some "csv" →
      parseFile content fn opts = CsvParser.parse content fn opts) := by
  refine ⟨?_, ?_, ?_, ?_, ?_⟩
  · intro pe
    rfl
  · intro content fn opts doc h
    exact (csvParse_doc_shape content fn opts doc h).2
  · intro content fn opts doc h hfm
    rw [(csvParse_doc_shape content fn opts doc h).2]
    rw [List.length_eq_zero]
    rw [List.filter_eq_nil_iff]
    intro e he
    obtain ⟨pe, hpe, hce⟩ := List.mem_map.mp he
    rw [← hce]
    have ht := hfm pe hpe
    simp [csvClassify, ht]
  · intro content fn s h
    simp only [loadFileModel]
    rw [h]
    cases hd : (parseFile content fn { lenient := some true }).document with
    | none => exact ⟨rfl, rfl⟩
    | some d => exact ⟨rfl, rfl⟩
  · intro content fn opts h
    simp [parseFile, h]

/-- Claim C7, witness: a `TooManyFields` mismatch alone leaves
`success = true`, while the `MissingQuotes` input fails and `loadFile`
keeps the empty state's document. -/
theorem claimC7_witness :
    ((CsvParser.parse "a,b\n1,2,3" "t.csv" {}).document =
        some ((CsvParser.parse "a,b\n1,2,3" "t.csv" {}).document.getD
          (jsonDocOf JsonValue.null "" "")) ∧
      (∀ pe ∈ csvPapaErrs "a,b\n1,2,3" "t.csv" {}, pe.type = "FieldMismatch") ∧
      (CsvParser.parse "a,b\n1,2,3" "t.csv" {}).success = true) ∧
    ((parseFile "a,b\nc,\"x" "t.csv" { lenient := some true }).success = false ∧
      (loadFileModel "a,b\nc,\"x" "t.csv" {}).document = ({} : DocState).document ∧
      (loadFileModel "a,b\nc,\"x" "t.csv" {}).loadError = some (firstErrMsg
        (parseFile "a,b\nc,\"x" "t.csv" { lenient := some true }) "Failed to parse file")) ∧
    (getParserForFile "t.csv" (some "a,b\n1,2,3") = some "csv" ∧
      parseFile "a,b\n1,2,3" "t.csv" {} = CsvParser.parse "a,b\n1,2,3" "t.csv" {}) :=
  ⟨⟨rfl, by decide,
      claimC7_amended.2.2.1 "a,b\n1,2,3" "t.csv" {}
        ((CsvParser.parse "a,b\n1,2,3" "t.csv" {}).document.getD
          (jsonDocOf JsonValue.null "" "")) rfl (by decide)⟩,
    ⟨rfl, (claimC7_amended.2.2.2.1 "a,b\nc,\"x" "t.csv" {} rfl).1,
      (claimC7_amended.2.2.2.1 "a,b\nc,\"x" "t.csv" {} rfl).2⟩,
    ⟨rfl, claimC7_amended.2.2.2.2 "a,b\n1,2,3" "t.csv" {} rfl⟩⟩
